import Mathlib

/-!
# BOSSA shell commands (`src/Command.cpp`): a shallow embedding

Strings are lists of characters (the contents of a NUL-terminated C string, without the
terminator), `uint32_t` values are natural numbers below `2 ^ 32`, and the collaborators the
commands talk to (the SAM-BA device, the flash driver, the host file system, the C library) are
explicit parameters.  Every command returns the list of collaborator calls it made, in order.
-/

namespace Bossa

/-! ## The C library: `strtoll` with base 0 -/

/-- The `isspace` test of the C locale: space, tab, line feed, vertical tab, form feed, return. -/
def isspace (c : Char) : Bool :=
  c.toNat = 32 || (9 ≤ c.toNat && c.toNat ≤ 13)

/-- The value `strtoll` gives a character as a digit: `0-9`, then letters of either case from 10. -/
def digitValue (c : Char) : Option Nat :=
  if 48 ≤ c.toNat ∧ c.toNat ≤ 57 then some (c.toNat - 48)
  else if 97 ≤ c.toNat ∧ c.toNat ≤ 122 then some (c.toNat - 97 + 10)
  else if 65 ≤ c.toNat ∧ c.toNat ≤ 90 then some (c.toNat - 65 + 10)
  else none

/-- Whether a character is a digit of the given base. -/
def isDigitIn (base : Nat) (c : Char) : Bool :=
  match digitValue c with
  | some d => decide (d < base)
  | none => false

/-- The digit loop of `strtoll`: consume the longest run of digits of the base, accumulating the
magnitude (unbounded here; the range check comes after), and return what was not consumed. -/
def scanDigits (base : Nat) : Nat → List Char → Nat × List Char
  | acc, [] => (acc, [])
  | acc, c :: cs =>
    match digitValue c with
    | some d => if d < base then scanDigits base (acc * base + d) cs else (acc, c :: cs)
    | none => (acc, c :: cs)

/-- The subject sequence of `strtoll` for base 0, after white space and sign: `0x`/`0X` followed
by a hexadecimal digit selects base 16, another leading `0` base 8, anything else base 10.
Returns the magnitude and the unconsumed rest, or `none` when there is no digit to convert. -/
def scanSubject (s : List Char) : Option (Nat × List Char) :=
  match s with
  | [] => none
  | c :: r =>
    if c.toNat = 48 then
      match r with
      | x :: h :: t =>
        if (x.toNat = 120 ∨ x.toNat = 88) ∧ isDigitIn 16 h = true
        then some (scanDigits 16 0 (h :: t))
        else some (scanDigits 8 0 s)
      | _ => some (scanDigits 8 0 s)
    else if isDigitIn 10 c = true then some (scanDigits 10 0 s)
    else none

/-- The `errno` value for a result out of range. -/
def ERANGE : Nat := 34

/-- The `errno` value some C libraries report when nothing could be converted. -/
def EINVAL : Nat := 22

/-- The largest `long long`. -/
def LLONG_MAX : Int := 9223372036854775807

/-- The smallest `long long`. -/
def LLONG_MIN : Int := -9223372036854775808

/-- The largest `uint32_t`. -/
def UINT32_MAX : Int := 4294967295

/-- What a call `errno = 0; value = strtoll(arg, &end, 0)` leaves behind. -/
structure StrtollResult where
  /-- The returned value. -/
  value : Int
  /-- The string `end` points to. -/
  rest : List Char
  /-- The value of `errno` after the call. -/
  errno : Nat

/-- The conversion step of `strtoll`, once white space and sign are read: `s1` is what follows
the sign, `neg` whether the sign was `-`, `nptr` the whole argument.  When nothing can be
converted the result is 0 and `end = nptr`; ISO C and glibc leave `errno` alone there, POSIX lets
a library set `EINVAL` (the BSD libraries do), which is the flag `einval`.  A magnitude out of
range gives `LLONG_MAX`/`LLONG_MIN` with `errno = ERANGE`, the digits still consumed. -/
def strtollConvert (einval : Bool) (nptr : List Char) (neg : Bool) (s1 : List Char) :
    StrtollResult :=
  match scanSubject s1 with
  | none => { value := 0, rest := nptr, errno := if einval then EINVAL else 0 }
  | some (mag, rest) =>
    if neg then
      if (mag : Int) > -LLONG_MIN then { value := LLONG_MIN, rest := rest, errno := ERANGE }
      else { value := -(mag : Int), rest := rest, errno := 0 }
    else
      if (mag : Int) > LLONG_MAX then { value := LLONG_MAX, rest := rest, errno := ERANGE }
      else { value := (mag : Int), rest := rest, errno := 0 }

/-- The C library function `strtoll(nptr, &end, 0)` called with `errno = 0` (ISO C 7.22.1.4):
skip white space, read an optional sign `-` or `+`, convert the subject sequence. -/
def strtoll (einval : Bool) (nptr : List Char) : StrtollResult :=
  match nptr.dropWhile isspace with
  | [] => strtollConvert einval nptr false []
  | c :: r =>
    if c.toNat = 45 then strtollConvert einval nptr true r
    else if c.toNat = 43 then strtollConvert einval nptr false r
    else strtollConvert einval nptr false (c :: r)

/-! ## Argument validation -/

/-- The two messages `Command::argUint32` reports through `Command::error`. -/
inductive ArgError where
  /-- `Invalid number "..."`. -/
  | invalidNumber
  /-- `Number "..." is out of range`. -/
  | outOfRange
  deriving DecidableEq, Repr

deriving instance DecidableEq for Except

/-- `Command::argNum`: true iff `argc == num`. -/
def Command.argNum (argc num : Nat) : Bool :=
  if argc ≠ num then false else true

/-- `Command::argRange`: false iff `argc < min || argc > max`. -/
def Command.argRange (argc min max : Nat) : Bool :=
  if argc < min ∨ argc > max then false else true

/-- `Command::argUint32`: `.ok v` stands for `*addr = v; return true`, `.error` for the message
printed before `return false` (`*addr` untouched). -/
def Command.argUint32 (einval : Bool) (arg : List Char) : Except ArgError Nat :=
  let r := strtoll einval arg
  if r.errno ≠ 0 ∨ r.rest ≠ [] then .error .invalidNumber
  else if r.value < 0 ∨ r.value > UINT32_MAX then .error .outOfRange
  else .ok r.value.toNat

/-! ## Integer literals, as the specification describes them -/

/-- The value of a digit string in a base: defined when there is at least one digit and every
character is a digit of the base. -/
def digitsValue (base : Nat) (ds : List Char) : Option Nat :=
  if ds ≠ [] ∧ ds.all (isDigitIn base) = true
  then some (ds.foldl (fun acc c => acc * base + (digitValue c).getD 0) 0)
  else none

/-- The magnitude of an unsigned integer literal: `0x`/`0X` and hexadecimal digits, or `0` and
octal digits, or decimal digits not starting with `0`. -/
def literalMagnitude (t : List Char) : Option Nat :=
  match t with
  | [] => none
  | c :: r =>
    if c.toNat = 48 then
      match r with
      | x :: ds => if x.toNat = 120 ∨ x.toNat = 88 then digitsValue 16 ds else digitsValue 8 t
      | [] => digitsValue 8 t
    else digitsValue 10 t

/-- The value of an integer literal: an optional sign and an unsigned literal, nothing else. -/
def literalValue (t : List Char) : Option Int :=
  match t with
  | [] => none
  | c :: r =>
    if c.toNat = 45 then (literalMagnitude r).map (fun n => -(n : Int))
    else if c.toNat = 43 then (literalMagnitude r).map (fun n => (n : Int))
    else (literalMagnitude t).map (fun n => (n : Int))

/-! ## Collaborators: device, flash factory, files -/

/-- A 32-bit quantity wraps at this modulus. -/
def WORD : Nat := 4294967296

/-- A flash driver object (class `Flash`, declared outside `Command.cpp`); only its identity
matters to the commands. -/
structure Flash where
  /-- Which driver object this is. -/
  id : Nat
  deriving DecidableEq, Repr

/-- The static members of `Command` that commands read and change, with the memory of the
target behind `Command::_samba`: a byte at every 32-bit address. -/
structure State where
  /-- `Command::_connected`. -/
  connected : Bool
  /-- `Command::_flash`; `none` is the null pointer. -/
  flash : Option Flash
  /-- The target memory reached through `Command::_samba`. -/
  mem : Nat → Nat

/-- Modelled from the spec: `Device.read(addr, buf, len)` of the `Samba` class, which is not in
`Command.cpp`; it fills the buffer with the `len` bytes of target memory from `addr` on. -/
def Samba.read (mem : Nat → Nat) (addr len : Nat) : List Nat :=
  (List.range len).map (fun i => mem ((addr + i) % WORD))

/-- Modelled from the spec: `Device.write(addr, buf, len)` of the `Samba` class, which is not in
`Command.cpp`; it stores the bytes of the buffer in target memory from `addr` on. -/
def Samba.write (mem : Nat → Nat) (addr : Nat) : List Nat → Nat → Nat
  | [] => mem
  | b :: bs => Samba.write (Function.update mem (addr % WORD) b) (addr + 1) bs

/-- Modelled from the spec: `Device.readWord(addr)` of the `Samba` class, which is not in
`Command.cpp`; the little-endian word at `addr`. -/
def Samba.readWord (mem : Nat → Nat) (addr : Nat) : Nat :=
  mem (addr % WORD) + 256 * mem ((addr + 1) % WORD) + 65536 * mem ((addr + 2) % WORD)
    + 16777216 * mem ((addr + 3) % WORD)

/-- Modelled from the spec: `Device.writeWord(addr, value)` of the `Samba` class, which is not
in `Command.cpp`; it stores the word little-endian at `addr`. -/
def Samba.writeWord (mem : Nat → Nat) (addr value : Nat) : Nat → Nat :=
  Samba.write mem addr [value % 256, value / 256 % 256, value / 65536 % 256, value / 16777216 % 256]

/-- What a command throws to the shell. -/
inductive Error where
  /-- `FileOpenError(errno)`. -/
  | fileOpen (errno : Nat)
  /-- `FileIoError(errno)`. -/
  | fileIo (errno : Nat)
  /-- `FileShortError()`. -/
  | fileShort
  /-- Whatever a collaborator threw inside a `try` block of the command. -/
  | thrown
  deriving DecidableEq, Repr

/-- A call a command makes on one of its collaborators, with the arguments it passes.  Text
printed on standard output is not recorded, except the closing report of `mwf` and what the
operation part of `pio` prints. -/
inductive Call where
  /-- `_samba.connect(_portFactory.create(port))`. -/
  | connect (port : List Char)
  /-- `_samba.chipId()`. -/
  | chipId
  /-- `_flashFactory.create(_samba, chipId)`. -/
  | flashCreate (chipId : Nat)
  /-- `_samba.setDebug(state)`. -/
  | setDebug (state : Bool)
  /-- `_samba.read(addr, buf, count)`. -/
  | read (addr count : Nat)
  /-- `_samba.write(addr, buf, count)` with the bytes of the buffer. -/
  | write (addr : Nat) (data : List Nat)
  /-- `_samba.readByte(addr)`. -/
  | readByte (addr : Nat)
  /-- `_samba.writeByte(addr, value)`. -/
  | writeByte (addr value : Nat)
  /-- `_samba.readWord(addr)`. -/
  | readWord (addr : Nat)
  /-- `_samba.writeWord(addr, value)`. -/
  | writeWord (addr value : Nat)
  /-- `_samba.go(addr)`. -/
  | go (addr : Nat)
  /-- `_flasher.erase()`. -/
  | flashErase
  /-- `_flasher.info(_samba)`. -/
  | flashInfo
  /-- `_flasher.lock(bits, enable)`. -/
  | flashLock (bits : List Char) (enable : Bool)
  /-- `_flasher.read(file, count)`. -/
  | flashRead (file : List Char) (count : Nat)
  /-- `_flasher.write(file)`. -/
  | flashWrite (file : List Char)
  /-- `_flasher.verify(file)`. -/
  | flashVerify (file : List Char)
  /-- `fopen(path, "wb")` when `forWriting`, else `fopen(path, "rb")`. -/
  | fopen (path : List Char) (forWriting : Bool)
  /-- `fseek(infile, 0, SEEK_END)`. -/
  | fseek
  /-- `ftell(infile)`. -/
  | ftell
  /-- `rewind(infile)`. -/
  | rewind
  /-- `fread(buf, 1, size, infile)`. -/
  | fread (size : Nat)
  /-- `fwrite(buf, 1, size, infile)` with the bytes of the buffer. -/
  | fwrite (data : List Nat)
  /-- `fclose(infile)`. -/
  | fclose
  /-- `readline("? ")`. -/
  | readline
  /-- `_shell->exitFlag() = true`. -/
  | shellExit
  /-- `_shell->help()`. -/
  | shellHelp
  /-- `_shell->usage(name)`. -/
  | shellUsage (name : List Char)
  /-- `history_list()`. -/
  | historyList
  /-- `printf("Wrote %ld bytes to address %08x\n", fsize, addr)`. -/
  | report (fsize addr : Nat)
  /-- A `printf` of the operation part of `pio`, with the text it prints. -/
  | print (text : List Char)
  deriving DecidableEq, Repr

/-- What the world outside answers during one invocation of a command. -/
structure Env where
  /-- Whether the C library sets `EINVAL` when `strtoll` converts nothing. -/
  einval : Bool
  /-- The result of `_samba.connect(_portFactory.create(port))`. -/
  connectOk : List Char → Bool
  /-- The ports `_portFactory.begin()`, `next()`, ... yield before `end()`. -/
  ports : List (List Char)
  /-- The result of `_samba.chipId()`. -/
  chipId : Nat
  /-- The result of `_flashFactory.create(_samba, chipId)`; `none` is the null pointer. -/
  flashFor : Nat → Option Flash
  /-- Whether `malloc(count)` returns a buffer. -/
  mallocOk : Nat → Bool
  /-- Whether the k-th `_samba.read` of the invocation throws. -/
  readThrows : Nat → Bool
  /-- Whether the k-th `_samba.write` of the invocation throws. -/
  writeThrows : Nat → Bool
  /-- Whether `fopen` of the path succeeds. -/
  fopenOk : List Char → Bool
  /-- The value of `errno` after a failed file operation. -/
  errno : Nat
  /-- The contents of the file at a path, for reading. -/
  fileData : List Char → List Nat
  /-- Whether `fseek(infile, 0, SEEK_END)` returns 0. -/
  fseekOk : Bool
  /-- Whether `ftell(infile)` returns a position (not a negative value). -/
  ftellOk : Bool
  /-- The position `ftell(infile)` returns after the seek to the end when it is not negative:
  the measured size of the file at a path.  It is the length of the contents for a regular
  file that nothing else changes meanwhile; it need not be for anything else (for a directory
  the C library reports the largest `long` and `fread` delivers nothing). -/
  ftellSize : List Char → Nat
  /-- How many bytes the k-th `fwrite` of the invocation, asked for `n`, reports written. -/
  fwriteRet : Nat → Nat → Nat
  /-- The lines `readline` returns, in order; after the last one it returns `NULL`. -/
  lines : List (List Char)

/-- What an invocation leaves behind: the state, the calls made in order, the bytes written to
the destination file (for `mrf`), and the exception thrown to the shell, if any. -/
structure Result where
  /-- The state after the invocation. -/
  state : State
  /-- The collaborator calls, in the order made. -/
  calls : List Call
  /-- The bytes the invocation wrote to its destination file, in order. -/
  file : List Nat
  /-- The exception that leaves `invoke`, if one does. -/
  error : Option Error

/-- An invocation that returns at once: nothing called, nothing changed. -/
def Result.ret (s : State) : Result :=
  { state := s, calls := [], file := [], error := none }

/-- An invocation that makes the given calls and returns, the state unchanged. -/
def Result.call (s : State) (cs : List Call) : Result :=
  { state := s, calls := cs, file := [], error := none }

/-- The argument `argv[i]`. -/
def arg (argv : List (List Char)) (i : Nat) : List Char :=
  argv.getD i []

/-! ## Connection state and gating -/

/-- The static initialisers: `_connected = false`, `_flash` null. -/
def State.initial (mem : Nat → Nat) : State :=
  { connected := false, flash := none, mem := mem }

/-- `Command::connected`. -/
def Command.connected (s : State) : Bool :=
  if !s.connected then false else true

/-- `Command::flashable`. -/
def Command.flashable (s : State) : Bool :=
  if !Command.connected s then false
  else if s.flash = none then false
  else true

/-- `Command::createFlash`: the state after, the calls made, and the boolean returned. -/
def Command.createFlash (env : Env) (s : State) : State × List Call × Bool :=
  let chipId := env.chipId
  let s1 : State := { s with flash := env.flashFor chipId }
  if s1.flash = none then (s1, [Call.chipId, Call.flashCreate chipId], false)
  else (s1, [Call.chipId, Call.flashCreate chipId], true)

/-- `Command::disconnect`. -/
def Command.disconnect (s : State) : State :=
  { s with connected := false }

/-- `CommandConnect::invoke`. -/
def CommandConnect.invoke (env : Env) (argv : List (List Char)) (s : State) : Result :=
  if !Command.argNum argv.length 2 then Result.ret s
  else if !env.connectOk (arg argv 1) then
    Result.call { s with connected := false } [Call.connect (arg argv 1)]
  else
    let r := Command.createFlash env { s with connected := true }
    Result.call r.1 (Call.connect (arg argv 1) :: r.2.1)

/-- The loop of `CommandScan::invoke` over the ports, with what follows it when no port
answers. -/
def CommandScan.loop (env : Env) (s : State) : List (List Char) → Result
  | [] => Result.call { s with connected := false } []
  | port :: rest =>
    if env.connectOk port then
      let r := Command.createFlash env { s with connected := true }
      Result.call r.1 (Call.connect port :: r.2.1)
    else
      let r := CommandScan.loop env s rest
      { r with calls := Call.connect port :: r.calls }

/-- `CommandScan::invoke`. -/
def CommandScan.invoke (env : Env) (argv : List (List Char)) (s : State) : Result :=
  if !Command.argNum argv.length 1 then Result.ret s
  else CommandScan.loop env s env.ports

/-! ## The commands -/

/-- The C library function `tolower` on the letters `A-Z`; other characters are unchanged. -/
def tolower (c : Char) : Char :=
  if 65 ≤ c.toNat ∧ c.toNat ≤ 90 then Char.ofNat (c.toNat + 32) else c

/-- Whether `strcasecmp(a, b) == 0`. -/
def strcasecmp (a b : List Char) : Bool :=
  decide (a.map tolower = b.map tolower)

/-- Whether `strncasecmp(a, b, n) == 0`: the first `n` characters agree, case ignored, the
comparison ending early where both strings end. -/
def strncasecmp (a b : List Char) (n : Nat) : Bool :=
  decide ((a.take n).map tolower = (b.take n).map tolower)

/-- A result with one more call in front. -/
def Result.after (c : Call) (r : Result) : Result :=
  { r with calls := c :: r.calls }

/-- An invocation that makes the given calls and then lets an exception through. -/
def Result.throw (s : State) (cs : List Call) (e : Error) : Result :=
  { state := s, calls := cs, file := [], error := some e }

/-- `CommandDebug::invoke`. -/
def CommandDebug.invoke (_env : Env) (argv : List (List Char)) (s : State) : Result :=
  if !Command.argNum argv.length 2 then Result.ret s
  else if strcasecmp (arg argv 1) "off".toList then Result.call s [Call.setDebug false]
  else if strcasecmp (arg argv 1) "on".toList then Result.call s [Call.setDebug true]
  else Result.ret s

/-- `CommandDisass::invoke`; `addr & ~0x1` is `addr &&& 0xFFFFFFFE`. -/
def CommandDisass.invoke (env : Env) (argv : List (List Char)) (s : State) : Result :=
  if !Command.argNum argv.length 3 then Result.ret s
  else match Command.argUint32 env.einval (arg argv 1) with
  | .error _ => Result.ret s
  | .ok addr =>
    match Command.argUint32 env.einval (arg argv 2) with
    | .error _ => Result.ret s
    | .ok count =>
      if !Command.connected s then Result.ret s
      else if !env.mallocOk count then Result.ret s
      else if env.readThrows 0 then
        Result.throw s [Call.read (addr &&& 0xFFFFFFFE) count] Error.thrown
      else Result.call s [Call.read (addr &&& 0xFFFFFFFE) count]

/-- `CommandDump::invoke`. -/
def CommandDump.invoke (env : Env) (argv : List (List Char)) (s : State) : Result :=
  if !Command.argNum argv.length 3 then Result.ret s
  else match Command.argUint32 env.einval (arg argv 1) with
  | .error _ => Result.ret s
  | .ok addr =>
    match Command.argUint32 env.einval (arg argv 2) with
    | .error _ => Result.ret s
    | .ok count =>
      if !Command.connected s then Result.ret s
      else if !env.mallocOk count then Result.ret s
      else if env.readThrows 0 then Result.throw s [Call.read addr count] Error.thrown
      else Result.call s [Call.read addr count]

/-- `CommandErase::invoke`. -/
def CommandErase.invoke (_env : Env) (argv : List (List Char)) (s : State) : Result :=
  if !Command.argNum argv.length 1 then Result.ret s
  else if !Command.flashable s then Result.ret s
  else Result.call s [Call.flashErase]

/-- `CommandExit::invoke`. -/
def CommandExit.invoke (_env : Env) (argv : List (List Char)) (s : State) : Result :=
  if !Command.argNum argv.length 1 then Result.ret s
  else Result.call s [Call.shellExit]

/-- `CommandGo::invoke`. -/
def CommandGo.invoke (env : Env) (argv : List (List Char)) (s : State) : Result :=
  if !Command.argNum argv.length 2 then Result.ret s
  else match Command.argUint32 env.einval (arg argv 1) with
  | .error _ => Result.ret s
  | .ok addr =>
    if !Command.connected s then Result.ret s
    else Result.call s [Call.go addr]

/-- `CommandHelp::invoke`. -/
def CommandHelp.invoke (_env : Env) (argv : List (List Char)) (s : State) : Result :=
  if !Command.argRange argv.length 1 2 then Result.ret s
  else if argv.length = 1 then Result.call s [Call.shellHelp]
  else Result.call s [Call.shellUsage (arg argv 1)]

/-- `CommandHistory::invoke`. -/
def CommandHistory.invoke (_env : Env) (argv : List (List Char)) (s : State) : Result :=
  if !Command.argNum argv.length 1 then Result.ret s
  else Result.call s [Call.historyList]

/-- `CommandInfo::invoke`. -/
def CommandInfo.invoke (_env : Env) (argv : List (List Char)) (s : State) : Result :=
  if !Command.argNum argv.length 1 then Result.ret s
  else if !Command.flashable s then Result.ret s
  else Result.call s [Call.flashInfo]

/-- The loop `for (argn = 1; argn < argc; argn++) bits += argv[argn]` of `lock` and `unlock`. -/
def concatBits (argv : List (List Char)) : List Char :=
  (argv.drop 1).foldl (fun bits a => bits ++ a) []

/-- `CommandLock::invoke`. -/
def CommandLock.invoke (_env : Env) (argv : List (List Char)) (s : State) : Result :=
  if !Command.flashable s then Result.ret s
  else Result.call s [Call.flashLock (concatBits argv) true]

/-- The loop of `CommandMrb::invoke`: one `readByte` per count, the address going up by one. -/
def CommandMrb.loop (addr : Nat) : Nat → List Call
  | 0 => []
  | count + 1 => Call.readByte addr :: CommandMrb.loop ((addr + 1) % WORD) count

/-- The optional numeric argument `argc == 3 && !argUint32(argv[2], &x)`: the variable keeps
the value it had when the argument is absent. -/
def optUint32 (env : Env) (argv : List (List Char)) (held : Nat) : Except ArgError Nat :=
  if argv.length = 3 then Command.argUint32 env.einval (arg argv 2) else .ok held

/-- `CommandMrb::invoke`. -/
def CommandMrb.invoke (env : Env) (argv : List (List Char)) (s : State) : Result :=
  if !Command.argRange argv.length 2 3 then Result.ret s
  else match Command.argUint32 env.einval (arg argv 1) with
  | .error _ => Result.ret s
  | .ok addr =>
    match optUint32 env argv 1 with
    | .error _ => Result.ret s
    | .ok count =>
      if !Command.connected s then Result.ret s
      else Result.call s (CommandMrb.loop addr count)

/-- The loop of `CommandMrf::invoke`, iteration `k` with `count` bytes still to go.  `fwrite`
returns a `size_t` no larger than the size asked for, so the test `fbytes < 0` never fires. -/
def CommandMrf.loop (env : Env) (s : State) (addr : Nat) (count k : Nat) : Result :=
  if h : count > 0 then
    if env.readThrows k then Result.throw s [Call.read addr (min count 1024)] Error.thrown
    else
      let buf := Samba.read s.mem addr (min count 1024)
      let fbytes := min (env.fwriteRet k (min count 1024)) (min count 1024)
      if h2 : fbytes ≠ min count 1024 then
        { state := s, calls := [Call.read addr (min count 1024), Call.fwrite buf],
          file := buf.take fbytes, error := some Error.fileShort }
      else
        let r := CommandMrf.loop env s addr (count - fbytes) (k + 1)
        { r with calls := Call.read addr (min count 1024) :: Call.fwrite buf :: r.calls,
                 file := buf.take fbytes ++ r.file }
  else Result.ret s
termination_by count
decreasing_by omega

/-- `CommandMrf::invoke`: the `catch (...)` block and the normal exit both close the file. -/
def CommandMrf.invoke (env : Env) (argv : List (List Char)) (s : State) : Result :=
  if !Command.argNum argv.length 4 then Result.ret s
  else match Command.argUint32 env.einval (arg argv 1) with
  | .error _ => Result.ret s
  | .ok addr =>
    match Command.argUint32 env.einval (arg argv 2) with
    | .error _ => Result.ret s
    | .ok count =>
      if !Command.connected s then Result.ret s
      else if !env.fopenOk (arg argv 3) then
        Result.throw s [Call.fopen (arg argv 3) true] (Error.fileOpen env.errno)
      else
        let r := CommandMrf.loop env s addr count 0
        { r with calls := Call.fopen (arg argv 3) true :: (r.calls ++ [Call.fclose]) }

/-- The loop of `CommandMrw::invoke`: one `readWord` per count, the address going up by four. -/
def CommandMrw.loop (addr : Nat) : Nat → List Call
  | 0 => []
  | count + 1 => Call.readWord addr :: CommandMrw.loop ((addr + 4) % WORD) count

/-- `CommandMrw::invoke`. -/
def CommandMrw.invoke (env : Env) (argv : List (List Char)) (s : State) : Result :=
  if !Command.argRange argv.length 2 3 then Result.ret s
  else match Command.argUint32 env.einval (arg argv 1) with
  | .error _ => Result.ret s
  | .ok addr =>
    match optUint32 env argv 1 with
    | .error _ => Result.ret s
    | .ok count =>
      if !Command.connected s then Result.ret s
      else Result.call s (CommandMrw.loop addr count)

/-- The prompt loop of `CommandMwb::invoke` (`argc == 2`) over the lines `readline` returns.
The test `input == '\0'` compares the pointer, which is not null there, so it never fires. -/
def CommandMwb.prompt (env : Env) (addr : Nat) (s : State) : List (List Char) → Result
  | [] => Result.call s [Call.readline]
  | input :: rest =>
    match Command.argUint32 env.einval input with
    | .error _ => Result.call s [Call.readline]
    | .ok value =>
      if value > 255 then Result.call s [Call.readline]
      else
        Result.after Call.readline (Result.after (Call.writeByte addr value)
          (CommandMwb.prompt env ((addr + 1) % WORD)
            { s with mem := Function.update s.mem addr value } rest))

/-- `CommandMwb::invoke`. -/
def CommandMwb.invoke (env : Env) (argv : List (List Char)) (s : State) : Result :=
  if !Command.argRange argv.length 2 3 then Result.ret s
  else match Command.argUint32 env.einval (arg argv 1) with
  | .error _ => Result.ret s
  | .ok addr =>
    match optUint32 env argv 0 with
    | .error _ => Result.ret s
    | .ok value =>
      if !Command.connected s then Result.ret s
      else if argv.length = 2 then CommandMwb.prompt env addr s env.lines
      else if value > 255 then Result.ret s
      else
        Result.call { s with mem := Function.update s.mem addr value }
          [Call.writeByte addr value]

/-- The loop of `CommandMwf::invoke`, iteration `k` at file position `fpos`; `data` is the
contents of the file and `fsize` its measured size.  `fread` delivers the bytes from the file
position on, at most `min(fsize, 1024)` of them, and none at the end of the contents, where
`fbytes == 0` leaves the loop.  `fread` returns a `size_t`, so the test `fbytes < 0` never
fires. -/
def CommandMwf.loop (env : Env) (data : List Nat) (fsize addr : Nat) (s : State)
    (fpos k : Nat) : Result :=
  if h : fpos < fsize then
    let buf := (data.drop fpos).take (min fsize 1024)
    if h2 : buf.length = 0 then Result.call s [Call.fread (min fsize 1024)]
    else if env.writeThrows k then
      Result.throw s [Call.fread (min fsize 1024), Call.write addr buf] Error.thrown
    else
      Result.after (Call.fread (min fsize 1024)) (Result.after (Call.write addr buf)
        (CommandMwf.loop env data fsize addr { s with mem := Samba.write s.mem addr buf }
          (fpos + buf.length) (k + 1)))
  else Result.ret s
termination_by fsize - fpos
decreasing_by
  show fsize - (fpos + buf.length) < fsize - fpos
  omega

/-- `CommandMwf::invoke`: the `catch (...)` block and the normal exit both close the file; the
report is printed on the normal exit only, and names the size `ftell` measured, whatever the
loop transferred. -/
def CommandMwf.invoke (env : Env) (argv : List (List Char)) (s : State) : Result :=
  if !Command.argNum argv.length 3 then Result.ret s
  else match Command.argUint32 env.einval (arg argv 1) with
  | .error _ => Result.ret s
  | .ok addr =>
    if !Command.connected s then Result.ret s
    else if !env.fopenOk (arg argv 2) then
      Result.throw s [Call.fopen (arg argv 2) false] (Error.fileOpen env.errno)
    else if !env.fseekOk then
      Result.throw s [Call.fopen (arg argv 2) false, Call.fseek, Call.fclose]
        (Error.fileIo env.errno)
    else if !env.ftellOk then
      Result.throw s [Call.fopen (arg argv 2) false, Call.fseek, Call.ftell, Call.fclose]
        (Error.fileIo env.errno)
    else
      let fsize := env.ftellSize (arg argv 2)
      let r := CommandMwf.loop env (env.fileData (arg argv 2)) fsize addr s 0 0
      match r.error with
      | some _ =>
        { r with calls := [Call.fopen (arg argv 2) false, Call.fseek, Call.ftell, Call.rewind]
                   ++ r.calls ++ [Call.fclose] }
      | none =>
        { r with calls := [Call.fopen (arg argv 2) false, Call.fseek, Call.ftell, Call.rewind]
                   ++ r.calls ++ [Call.fclose, Call.report fsize addr] }

/-- The prompt loop of `CommandMww::invoke` (`argc == 2`) over the lines `readline` returns.
The test `input == '\0'` compares the pointer, which is not null there, so it never fires. -/
def CommandMww.prompt (env : Env) (addr : Nat) (s : State) : List (List Char) → Result
  | [] => Result.call s [Call.readline]
  | input :: rest =>
    match Command.argUint32 env.einval input with
    | .error _ => Result.call s [Call.readline]
    | .ok value =>
      Result.after Call.readline (Result.after (Call.writeWord addr value)
        (CommandMww.prompt env ((addr + 1) % WORD)
          { s with mem := Samba.writeWord s.mem addr value } rest))

/-- `CommandMww::invoke`. -/
def CommandMww.invoke (env : Env) (argv : List (List Char)) (s : State) : Result :=
  if !Command.argRange argv.length 2 3 then Result.ret s
  else match Command.argUint32 env.einval (arg argv 1) with
  | .error _ => Result.ret s
  | .ok addr =>
    match optUint32 env argv 0 with
    | .error _ => Result.ret s
    | .ok value =>
      if !Command.connected s then Result.ret s
      else if argv.length = 2 then CommandMww.prompt env addr s env.lines
      else
        Result.call { s with mem := Samba.writeWord s.mem addr value }
          [Call.writeWord addr value]

/-- The three `switch (port)` tables of `CommandPio::invoke`, chosen by `eproc` and `arch` of
the chip id; 0 when the port letter is in none. -/
def CommandPio.base (chipId : Nat) (port : Char) : Nat :=
  let eproc := (chipId >>> 5) &&& 0x7
  let arch := (chipId >>> 20) &&& 0xff
  if eproc = 3 then
    if arch ≥ 0x80 ∧ arch ≤ 0x81 then
      if port.toNat = 97 then 0x400e0c00
      else if port.toNat = 98 then 0x400e0e00
      else if port.toNat = 99 then 0x400e1000
      else 0
    else
      if port.toNat = 97 then 0x400e0e00
      else if port.toNat = 98 then 0x400e1000
      else if port.toNat = 99 then 0x400e1200
      else 0
  else
    if port.toNat = 97 then 0xfffff400
    else if port.toNat = 98 then 0xfffff600
    else if port.toNat = 99 then 0xfffff800
    else 0

/-- Register offset `PIO_PER`. -/
def PIO_PER : Nat := 0x0

/-- Register offset `PIO_PSR`. -/
def PIO_PSR : Nat := 0x8

/-- Register offset `PIO_OER`. -/
def PIO_OER : Nat := 0x10

/-- Register offset `PIO_ODR`. -/
def PIO_ODR : Nat := 0x14

/-- Register offset `PIO_OSR`. -/
def PIO_OSR : Nat := 0x18

/-- Register offset `PIO_SODR`. -/
def PIO_SODR : Nat := 0x30

/-- Register offset `PIO_CODR`. -/
def PIO_CODR : Nat := 0x34

/-- Register offset `PIO_ODSR`. -/
def PIO_ODSR : Nat := 0x38

/-- Register offset `PIO_PDSR`. -/
def PIO_PDSR : Nat := 0x3c

/-- Register offset `PIO_ABSR`. -/
def PIO_ABSR : Nat := 0x70

/-- The state and calls of a run of `_samba.writeWord(addr + offset, line)` calls. -/
def CommandPio.writes (s : State) (addr line : Nat) (offsets : List Nat) : Result :=
  Result.call
    { s with mem := offsets.foldl (fun m off => Samba.writeWord m (addr + off) line) s.mem }
    (offsets.map (fun off => Call.writeWord (addr + off) line))

/-- The operation part of `CommandPio::invoke`: the chain of `strncasecmp(argv[2], ..., len)`
tests with `len = strlen(argv[2])`, and the register accesses and `printf` calls of the first
that matches. -/
def CommandPio.operation (s : State) (addr line : Nat) (op : List Char) : Result :=
  if strncasecmp op "detail".toList op.length then
    if Samba.readWord s.mem (addr + PIO_PSR) &&& line ≠ 0 then
      if Samba.readWord s.mem (addr + PIO_OSR) &&& line ≠ 0 then
        Result.call s [Call.readWord (addr + PIO_PSR),
          Call.print "PIO Status    : PIO\n".toList,
          Call.readWord (addr + PIO_OSR),
          Call.print "Output Status : output\n".toList,
          Call.readWord (addr + PIO_ODSR),
          Call.print (if Samba.readWord s.mem (addr + PIO_ODSR) &&& line ≠ 0
            then "Output Data   : high\n".toList else "Output Data   : low\n".toList),
          Call.readWord (addr + PIO_PDSR),
          Call.print (if Samba.readWord s.mem (addr + PIO_PDSR) &&& line ≠ 0
            then "Pin Data      : high\n".toList else "Pin Data      : low\n".toList)]
      else
        Result.call s [Call.readWord (addr + PIO_PSR),
          Call.print "PIO Status    : PIO\n".toList,
          Call.readWord (addr + PIO_OSR),
          Call.print "Output Status : input\n".toList,
          Call.readWord (addr + PIO_PDSR),
          Call.print (if Samba.readWord s.mem (addr + PIO_PDSR) &&& line ≠ 0
            then "Pin Data      : high\n".toList else "Pin Data      : low\n".toList)]
    else
      Result.call s [Call.readWord (addr + PIO_PSR),
        Call.print "PIO Status    : periph\n".toList,
        Call.readWord (addr + PIO_ABSR),
        Call.print (if Samba.readWord s.mem (addr + PIO_ABSR) &&& line ≠ 0
          then "Periph Select : A\n".toList else "Periph Select : B\n".toList)]
  else if strncasecmp op "high".toList op.length then
    CommandPio.writes s addr line [PIO_SODR, PIO_OER, PIO_PER]
  else if strncasecmp op "low".toList op.length then
    CommandPio.writes s addr line [PIO_CODR, PIO_OER, PIO_PER]
  else if strncasecmp op "status".toList op.length then
    Result.call s [Call.readWord (addr + PIO_PDSR),
      Call.print (if Samba.readWord s.mem (addr + PIO_PDSR) &&& line ≠ 0
        then "high\n".toList else "low\n".toList)]
  else if strncasecmp op "input".toList op.length then
    CommandPio.writes s addr line [PIO_ODR, PIO_PER]
  else Result.call s [Call.print "Invalid PIO operation\n".toList]

/-- `CommandPio::invoke`; `&argv[1][2]` is the line name without its first two characters. -/
def CommandPio.invoke (env : Env) (argv : List (List Char)) (s : State) : Result :=
  if !Command.argNum argv.length 3 then Result.ret s
  else if !Command.connected s then Result.ret s
  else if (arg argv 1).length < 3 ∨ tolower ((arg argv 1).getD 0 ' ') ≠ 'p' then Result.ret s
  else match Command.argUint32 env.einval ((arg argv 1).drop 2) with
  | .error _ => Result.ret s
  | .ok line =>
    if line ≥ 32 then Result.ret s
    else
      let addr := CommandPio.base env.chipId (tolower ((arg argv 1).getD 1 ' '))
      if addr = 0 then Result.call s [Call.chipId]
      else Result.after Call.chipId (CommandPio.operation s addr (1 <<< line) (arg argv 2))

/-- `CommandRead::invoke`. -/
def CommandRead.invoke (env : Env) (argv : List (List Char)) (s : State) : Result :=
  if !Command.argRange argv.length 2 3 then Result.ret s
  else match optUint32 env argv 0 with
  | .error _ => Result.ret s
  | .ok count =>
    if !Command.flashable s then Result.ret s
    else Result.call s [Call.flashRead (arg argv 1) count]

/-- `CommandUnlock::invoke`. -/
def CommandUnlock.invoke (_env : Env) (argv : List (List Char)) (s : State) : Result :=
  if !Command.flashable s then Result.ret s
  else Result.call s [Call.flashLock (concatBits argv) true]

/-- `CommandVerify::invoke`. -/
def CommandVerify.invoke (_env : Env) (argv : List (List Char)) (s : State) : Result :=
  if !Command.argNum argv.length 2 then Result.ret s
  else if !Command.flashable s then Result.ret s
  else Result.call s [Call.flashVerify (arg argv 1)]

/-- `CommandWrite::invoke`. -/
def CommandWrite.invoke (_env : Env) (argv : List (List Char)) (s : State) : Result :=
  if !Command.argNum argv.length 2 then Result.ret s
  else if !Command.flashable s then Result.ret s
  else Result.call s [Call.flashWrite (arg argv 1)]

/-- The commands of `Command.cpp`. -/
inductive Cmd where
  | connect | debug | disass | dump | erase | exit | go | help | history | info | lock
  | mrb | mrf | mrw | mwb | mwf | mww | pio | read | scan | unlock | verify | write
  deriving DecidableEq, Repr

/-- The virtual call `Command::invoke(argv, argc)` on the command object of each class;
`argc` is the length of `argv`, the command name counted. -/
def Cmd.invoke : Cmd → Env → List (List Char) → State → Result
  | .connect => CommandConnect.invoke
  | .debug => CommandDebug.invoke
  | .disass => CommandDisass.invoke
  | .dump => CommandDump.invoke
  | .erase => CommandErase.invoke
  | .exit => CommandExit.invoke
  | .go => CommandGo.invoke
  | .help => CommandHelp.invoke
  | .history => CommandHistory.invoke
  | .info => CommandInfo.invoke
  | .lock => CommandLock.invoke
  | .mrb => CommandMrb.invoke
  | .mrf => CommandMrf.invoke
  | .mrw => CommandMrw.invoke
  | .mwb => CommandMwb.invoke
  | .mwf => CommandMwf.invoke
  | .mww => CommandMww.invoke
  | .pio => CommandPio.invoke
  | .read => CommandRead.invoke
  | .scan => CommandScan.invoke
  | .unlock => CommandUnlock.invoke
  | .verify => CommandVerify.invoke
  | .write => CommandWrite.invoke

/-! ## What the specification declares -/

/-- The commands the specification calls flash commands: they go through `flashable`. -/
def Cmd.isFlash : Cmd → Bool
  | .erase | .info | .lock | .unlock | .read | .verify | .write => true
  | _ => false

/-- The commands the specification calls gated: the flash commands and those that go through
`connected`. -/
def Cmd.isGated : Cmd → Bool
  | .disass | .dump | .go | .mrb | .mrf | .mrw | .mwb | .mwf | .mww | .pio => true
  | c => c.isFlash

/-! ## Diagnostic formatting -/

/-- A hexadecimal digit as `printf("%x")` prints it: `0-9`, then lowercase `a-f`. -/
def hexDigit (d : Nat) : Char :=
  if d < 10 then Char.ofNat (48 + d) else Char.ofNat (87 + d)

/-- The text of `printf("%02x", b)` for a byte `b` (a `uint8_t`, so two digits). -/
def hex02 (b : Nat) : List Char :=
  [hexDigit (b / 16 % 16), hexDigit (b % 16)]

/-- The text of `printf("%08x", n)` for a 32-bit `n` (eight digits). -/
def hex08 (n : Nat) : List Char :=
  [hexDigit (n / 0x10000000 % 16), hexDigit (n / 0x1000000 % 16), hexDigit (n / 0x100000 % 16),
    hexDigit (n / 0x10000 % 16), hexDigit (n / 0x1000 % 16), hexDigit (n / 0x100 % 16),
    hexDigit (n / 0x10 % 16), hexDigit (n % 16)]

/-- The `isprint` test of the C locale on a byte: space up to tilde. -/
def isprint (b : Nat) : Bool :=
  decide (0x20 ≤ b ∧ b ≤ 0x7e)

/-- The text of `printf("%*s", width, "")`: `width` spaces. -/
def blanks (width : Nat) : List Char :=
  List.replicate width ' '

/-- What one turn of the loop of `Command::hexdump` computes before it prints: the row key
`addr & ROW_MASK`, `lpad`, the bytes `buf[0..size)` and `rpad`. -/
structure HexRow where
  /-- `addr & ROW_MASK`. -/
  key : Nat
  /-- `lpad`. -/
  lpad : Nat
  /-- `buf[0]`, ..., `buf[size - 1]`. -/
  bytes : List Nat
  /-- `rpad`. -/
  rpad : Nat
  deriving DecidableEq, Repr

/-- The value of `size` in a turn of the loop of `Command::hexdump`:
`ROW_SIZE - rpad - lpad` with `lpad = addr % ROW_SIZE` and
`rpad = ROW_SIZE - min(lpad + count, ROW_SIZE)`, `ROW_SIZE` being 16.  The sum `lpad + count`
is computed in `size_t` and does not wrap for a count that is the size of a buffer. -/
def Command.hexdumpSize (addr count : Nat) : Nat :=
  16 - (16 - min (addr % 16 + count) 16) - addr % 16

/-- The loop of `Command::hexdump`, one row per turn; `ROW_MASK` is `0xFFFFFFF0`, and a byte
beyond the end of `buf` reads as 0. -/
def Command.hexdumpRows (addr : Nat) (buf : List Nat) (count : Nat) : List HexRow :=
  if count > 0 then
    { key := addr &&& 0xFFFFFFF0,
      lpad := addr % 16,
      bytes := (List.range (Command.hexdumpSize addr count)).map
        (fun offset => buf.getD offset 0),
      rpad := 16 - min (addr % 16 + count) 16 } ::
    Command.hexdumpRows ((addr + Command.hexdumpSize addr count) % WORD)
      (buf.drop (Command.hexdumpSize addr count)) (count - Command.hexdumpSize addr count)
  else []
termination_by count
decreasing_by
  unfold Command.hexdumpSize
  omega

/-- The hex column of a row: `3 * lpad` spaces, `"%02x "` for each byte, `3 * rpad` spaces. -/
def HexRow.hexColumn (r : HexRow) : List Char :=
  blanks (3 * r.lpad) ++ (r.bytes.map (fun b => hex02 b ++ [' '])).flatten ++ blanks (3 * r.rpad)

/-- The ASCII column of a row: `lpad` spaces, for each byte its character if `isprint` holds
and `.` if not, `rpad` spaces. -/
def HexRow.asciiColumn (r : HexRow) : List Char :=
  blanks r.lpad ++ r.bytes.map (fun b => if isprint b then Char.ofNat b else '.') ++
    blanks r.rpad

/-- The text one turn of the loop prints: `"%08x | "`, the hex column, `"| "`, the ASCII
column, a newline. -/
def HexRow.text (r : HexRow) : List Char :=
  hex08 r.key ++ " | ".toList ++ r.hexColumn ++ "| ".toList ++ r.asciiColumn ++ ['\n']

/-- The column header `Command::hexdump` prints first. -/
def Command.hexdumpHeader : List Char :=
  "            0  1  2  3  4  5  6  7  8  9  a  b  c  d  e  f\n".toList

/-- `Command::hexdump`: the text printed. -/
def Command.hexdump (addr : Nat) (buf : List Nat) (count : Nat) : List Char :=
  Command.hexdumpHeader ++ ((Command.hexdumpRows addr buf count).map HexRow.text).flatten

/-- The characters the loop of `Command::binstr` stores through `str`, in order, for `bitnum`
from `n - 1` down to 0: the bit, then a space when `bitnum % 8 == 0`. -/
def Command.binstrLoop (value : Nat) : Nat → List Char
  | 0 => []
  | bitnum + 1 =>
    (if value &&& (1 <<< bitnum) ≠ 0 then '1' else '0') ::
      (if bitnum % 8 = 0 then ' ' :: Command.binstrLoop value bitnum
       else Command.binstrLoop value bitnum)

/-- `Command::binstr`: `none` when `assert(bits <= 32 && bits > 0)` fails; otherwise the string
in `buf` once `*(str - 1) = 0` has replaced the last character stored. -/
def Command.binstr (value bits : Nat) : Option (List Char) :=
  if bits ≤ 32 ∧ bits > 0 then some (Command.binstrLoop value bits).dropLast else none

/-! ## Formatting and pin operations, as the specification describes them -/

/-- The character for bit `b` of a value. -/
def bitChar (value b : Nat) : Char :=
  if value / 2 ^ b % 2 = 1 then '1' else '0'

/-- The `bits` least-significant bits of a value, most significant first, with a single space
between bit `8k` and bit `8k - 1` for every `k` with `0 < 8k < bits`. -/
def groupedBits (value bits : Nat) : List Char :=
  ((List.range bits).reverse.map
    (fun b => if b % 8 = 0 ∧ 0 < b then [bitChar value b, ' '] else [bitChar value b])).flatten

/-- The tests `CommandPio::invoke` makes before the operation all pass: three arguments, a
connected session, a line token of at least three characters beginning with `p` whose tail
`argUint32` reads as the bit index `i` below 32, and a port letter that the table for the
chip gives the base address `base`, not 0. -/
def CommandPio.lineResolved (env : Env) (argv : List (List Char)) (s : State)
    (i base : Nat) : Prop :=
  argv.length = 3 ∧ s.connected = true ∧ 3 ≤ (arg argv 1).length ∧
  tolower ((arg argv 1).getD 0 ' ') = 'p' ∧
  Command.argUint32 env.einval ((arg argv 1).drop 2) = .ok i ∧ i < 32 ∧
  CommandPio.base env.chipId (tolower ((arg argv 1).getD 1 ' ')) = base ∧ base ≠ 0

/-- The sixteen lowercase hexadecimal digits. -/
def lowerHexDigits : List Char :=
  "0123456789abcdef".toList

/-- A byte cell of the hex column: two lowercase hexadecimal digits, high one first, and a
space. -/
def hexCell (b : Nat) : List Char :=
  [lowerHexDigits.getD (b / 16) '?', lowerHexDigits.getD (b % 16) '?', ' ']

/-- A byte cell of the ASCII column: the character of the byte if it is printable (space up
to tilde), `.` if not. -/
def asciiCell (b : Nat) : Char :=
  if 0x20 ≤ b ∧ b ≤ 0x7e then Char.ofNat b else '.'

/-- A 32-bit value as eight lowercase hexadecimal digits, the most significant first. -/
def hexWord (n : Nat) : List Char :=
  (List.range 8).reverse.map (fun i => lowerHexDigits.getD (n / 16 ^ i % 16) '?')

/-- The operation keywords of `pio`. -/
inductive PioOp where
  | detail | high | low | status | input
  deriving DecidableEq, Repr

/-- The keyword as typed. -/
def PioOp.keyword : PioOp → List Char
  | .detail => "detail".toList
  | .high => "high".toList
  | .low => "low".toList
  | .status => "status".toList
  | .input => "input".toList

/-- Whether the token begins the keyword, case ignored. -/
def beginsNoCase (token keyword : List Char) : Bool :=
  (token.map tolower).isPrefixOf (keyword.map tolower)

/-- The first register access of each operation, by which it is told from the others: the
status read of `detail`, the set-output write of `high`, the clear-output write of `low`, the
pin-data read of `status`, the output-disable write of `input`. -/
def PioOp.firstAccess (addr line : Nat) : PioOp → Call
  | .detail => Call.readWord (addr + PIO_PSR)
  | .high => Call.writeWord (addr + PIO_SODR) line
  | .low => Call.writeWord (addr + PIO_CODR) line
  | .status => Call.readWord (addr + PIO_PDSR)
  | .input => Call.writeWord (addr + PIO_ODR) line

/-- Whether a call reads or writes a device register. -/
def Call.isRegisterAccess : Call → Bool
  | .readWord _ => true
  | .writeWord _ _ => true
  | _ => false

/-- The length of a device read: the `count` of a `_samba.read(addr, buf, count)` call. -/
def Call.readLength : Call → Option Nat
  | .read _ count => some count
  | _ => none

/-- The length of a file write: the number of bytes handed to an `fwrite` call. -/
def Call.writeLength : Call → Option Nat
  | .fwrite data => some data.length
  | _ => none

/-- A decimal digit. -/
def isDecimalDigit (c : Char) : Bool :=
  decide (48 ≤ c.toNat ∧ c.toNat ≤ 57)

/-- A line token as the specification has it: the letter `p`, a port letter `a`, `b` or `c`
(letters in either case), then decimal digits giving a bit index in `[0, 31]`. -/
def isDecimalLine (t : List Char) : Bool :=
  match t with
  | p :: port :: ds =>
    decide (tolower p = 'p') &&
    (decide (tolower port = 'a') || decide (tolower port = 'b') || decide (tolower port = 'c')) &&
    !ds.isEmpty && ds.all isDecimalDigit &&
    decide (ds.foldl (fun acc c => acc * 10 + (c.toNat - 48)) 0 ≤ 31)
  | _ => false

/-- A line token as `CommandPio::invoke` takes it: at least three characters, `p` and a port
letter `a`, `b` or `c` (letters in either case), then what `argUint32` accepts: optional white
space and an integer literal (optional sign; decimal, `0x` hexadecimal or `0` octal) of value
in `[0, 31]`. -/
def isLiteralLine (t : List Char) : Prop :=
  3 ≤ t.length ∧ tolower (t.getD 0 ' ') = 'p' ∧
  (tolower (t.getD 1 ' ') = 'a' ∨ tolower (t.getD 1 ' ') = 'b' ∨ tolower (t.getD 1 ' ') = 'c') ∧
  ∃ i : Nat, literalValue ((t.drop 2).dropWhile isspace) = some (i : Int) ∧ i ≤ 31

/-! ## Sessions -/

/-- An operation on the connection state: a `connect` or `scan` command with the answers of
the world during it, or `Command::disconnect`. -/
inductive SessionOp where
  /-- `connect` invoked with these arguments in this environment. -/
  | connect (env : Env) (argv : List (List Char))
  /-- `scan` invoked with these arguments in this environment. -/
  | scan (env : Env) (argv : List (List Char))
  /-- `Command::disconnect()`. -/
  | disconnect

/-- The state after one operation. -/
def SessionOp.apply : SessionOp → State → State
  | .connect env argv, s => (CommandConnect.invoke env argv s).state
  | .scan env argv, s => (CommandScan.invoke env argv s).state
  | .disconnect, s => Command.disconnect s

/-- The state after a sequence of operations, first to last. -/
def SessionOp.run (ops : List SessionOp) (s : State) : State :=
  ops.foldl (fun st op => op.apply st) s

/-- Whether the operation is a connection attempt that finds a device: the arity test passes
and `_samba.connect` returns true (for `scan`, on one of the ports). -/
def SessionOp.succeeds : SessionOp → Bool
  | .connect env argv => Command.argNum argv.length 2 && env.connectOk (arg argv 1)
  | .scan env argv => Command.argNum argv.length 1 && env.ports.any env.connectOk
  | .disconnect => false

/-! ## Sample worlds -/

/-- A world in which every collaborator answers: ISO C `strtoll`, a device on every port with
the chip id of a SAM3X8, flash driver 1 for every chip, every file operation complete, the
file read by `mwf` holding 1024 zero bytes and then a byte 1, no line at the prompt. -/
def Env.sample : Env where
  einval := false
  connectOk := fun _ => true
  ports := ["ttyACM0".toList]
  chipId := 0x285e0a60
  flashFor := fun _ => some { id := 1 }
  mallocOk := fun _ => true
  readThrows := fun _ => false
  writeThrows := fun _ => false
  fopenOk := fun _ => true
  errno := 0
  fileData := fun _ => List.replicate 1024 0 ++ [1]
  fseekOk := true
  ftellOk := true
  ftellSize := fun _ => 1025
  fwriteRet := fun _ n => n
  lines := []

/-- The sample world with no device on any port. -/
def Env.noDevice : Env :=
  { Env.sample with connectOk := fun _ => false }

/-- The sample world with a chip the flash factory has no driver for. -/
def Env.noFlash : Env :=
  { Env.sample with flashFor := fun _ => none }

/-- The sample world with a destination that takes no byte: every `fwrite` returns 0. -/
def Env.diskFull : Env :=
  { Env.sample with fwriteRet := fun _ _ => 0 }

/-- The sample world with lines typed at the `readline` prompt. -/
def Env.typing (lines : List String) : Env :=
  { Env.sample with lines := lines.map String.toList }

/-- The sample world with another regular file to read. -/
def Env.withFile (data : List Nat) : Env :=
  { Env.sample with fileData := fun _ => data, ftellSize := fun _ => data.length }

/-- The sample world where every path is a directory: it opens, the seek succeeds, `ftell`
reports the largest `long`, and there is nothing to read. -/
def Env.directory : Env :=
  { Env.sample with fileData := fun _ => [], ftellSize := fun _ => 2 ^ 63 - 1 }

/-- Target memory holding `a % 251` at address `a`. -/
def sampleMem : Nat → Nat :=
  fun a => a % 251

/-- A connected session with flash driver 1 over the sample memory. -/
def State.sample : State :=
  { connected := true, flash := some { id := 1 }, mem := sampleMem }

/-- A connected session with flash driver 1 over a memory of bytes 255. -/
def State.erased : State :=
  { connected := true, flash := some { id := 1 }, mem := fun _ => 255 }

/-- A connected session with flash driver 1 over a memory of bytes 0. -/
def State.cleared : State :=
  { connected := true, flash := some { id := 1 }, mem := fun _ => 0 }

/-- The five bytes of `Hello`. -/
def helloBytes : List Nat :=
  [72, 101, 108, 108, 111]

/-- The twenty bytes 60, 61, ..., 79. -/
def twentyBytes : List Nat :=
  (List.range 20).map (fun i => i + 60)

/-- The argument vector of a command line, one string per token. -/
def tokens (l : List String) : List (List Char) :=
  l.map String.toList

end Bossa

namespace Bossa

/-! ## Lemmas on `strtoll` -/

theorem scanDigits_snd_eq_nil (b : Nat) (s : List Char) (acc : Nat) :
    (scanDigits b acc s).2 = [] ↔ s.all (isDigitIn b) = true := by
  induction s generalizing acc with
  | nil => simp [scanDigits]
  | cons c cs ih =>
    cases hd : digitValue c with
    | none => simp [scanDigits, isDigitIn, hd]
    | some d =>
      by_cases hlt : d < b
      · simp [scanDigits, isDigitIn, hd, hlt, ih]
      · simp [scanDigits, isDigitIn, hd, hlt]

theorem scanDigits_fst (b : Nat) (s : List Char) (acc : Nat)
    (h : s.all (isDigitIn b) = true) :
    (scanDigits b acc s).1 = s.foldl (fun a c => a * b + (digitValue c).getD 0) acc := by
  induction s generalizing acc with
  | nil => simp [scanDigits]
  | cons c cs ih =>
    cases hd : digitValue c with
    | none => simp [isDigitIn, hd] at h
    | some d =>
      by_cases hlt : d < b
      · have hcs : cs.all (isDigitIn b) = true := by
          simp [isDigitIn, hd, hlt] at h
          simpa using h
        simp [scanDigits, hd, hlt, ih _ hcs]
      · simp [isDigitIn, hd, hlt] at h

theorem scanDigits_eq_iff (b : Nat) (s : List Char) (hs : s ≠ []) (m : Nat) :
    scanDigits b 0 s = (m, []) ↔ digitsValue b s = some m := by
  unfold digitsValue
  by_cases hall : s.all (isDigitIn b) = true
  · have h1 := scanDigits_fst b s 0 hall
    have h2 := (scanDigits_snd_eq_nil b s 0).2 hall
    rw [if_pos ⟨hs, hall⟩]
    constructor
    · intro h
      rw [h] at h1
      simp only at h1
      rw [← h1]
    · intro h
      have h3 : s.foldl (fun a c => a * b + (digitValue c).getD 0) 0 = m := by
        simpa using h
      rw [← h3, ← h1]
      exact Prod.ext rfl h2
  · have hne : ¬ (s ≠ [] ∧ s.all (isDigitIn b) = true) := fun h => hall h.2
    rw [if_neg hne]
    constructor
    · intro h
      have h2 := (scanDigits_snd_eq_nil b s 0).1 (by rw [h])
      exact absurd h2 hall
    · intro h
      cases h

theorem not_isDigitIn_eight_x (x : Char) (hx : x.toNat = 120 ∨ x.toNat = 88) :
    isDigitIn 8 x = false := by
  rcases hx with hx | hx <;> simp [isDigitIn, digitValue, hx]

theorem scanSubject_eq_iff (s : List Char) (m : Nat) :
    scanSubject s = some (m, []) ↔ literalMagnitude s = some m := by
  cases s with
  | nil => simp [scanSubject, literalMagnitude]
  | cons c r =>
    by_cases hc : c.toNat = 48
    · cases r with
      | nil =>
        simp only [scanSubject, literalMagnitude, if_pos hc, Option.some.injEq]
        exact scanDigits_eq_iff 8 [c] (by simp) m
      | cons x r2 =>
        by_cases hx : x.toNat = 120 ∨ x.toNat = 88
        · have hnot : scanDigits 8 0 (c :: x :: r2) ≠ (m, []) := by
            intro h
            have h2 := (scanDigits_snd_eq_nil 8 (c :: x :: r2) 0).1 (by rw [h])
            simp [not_isDigitIn_eight_x x hx] at h2
          cases r2 with
          | nil =>
            simp only [scanSubject, literalMagnitude, if_pos hc, if_pos hx, Option.some.injEq]
            simp [digitsValue, hnot]
          | cons h t =>
            by_cases hh : isDigitIn 16 h = true
            · simp only [scanSubject, literalMagnitude, if_pos hc, if_pos hx,
                if_pos (And.intro hx hh), Option.some.injEq]
              exact scanDigits_eq_iff 16 (h :: t) (by simp) m
            · simp only [scanSubject, literalMagnitude, if_pos hc, if_pos hx,
                if_neg (fun hp : (x.toNat = 120 ∨ x.toNat = 88) ∧ isDigitIn 16 h = true => hh hp.2),
                Option.some.injEq]
              simp [digitsValue, hnot, hh]
        · cases r2 with
          | nil =>
            simp only [scanSubject, literalMagnitude, if_pos hc, if_neg hx, Option.some.injEq]
            exact scanDigits_eq_iff 8 [c, x] (by simp) m
          | cons h t =>
            simp only [scanSubject, literalMagnitude, if_pos hc, if_neg hx,
              if_neg (fun hp : (x.toNat = 120 ∨ x.toNat = 88) ∧ isDigitIn 16 h = true => hx hp.1),
              Option.some.injEq]
            exact scanDigits_eq_iff 8 (c :: x :: h :: t) (by simp) m
    · by_cases hd : isDigitIn 10 c = true
      · simp only [scanSubject, literalMagnitude, if_neg hc, if_pos hd, Option.some.injEq]
        exact scanDigits_eq_iff 10 (c :: r) (by simp) m
      · simp only [scanSubject, literalMagnitude, if_neg hc, if_neg hd]
        simp [digitsValue, hd]

/-- The conversion step, read off the unsigned literal after the sign. -/
theorem strtollConvert_cases (e : Bool) (t : List Char) (neg : Bool) (s1 : List Char) :
    (∃ m : Nat, literalMagnitude s1 = some m ∧
        (strtollConvert e t neg s1).rest = [] ∧
        ((LLONG_MIN ≤ (if neg then -(m : Int) else (m : Int)) ∧
            (if neg then -(m : Int) else (m : Int)) ≤ LLONG_MAX ∧
            (strtollConvert e t neg s1).value = (if neg then -(m : Int) else (m : Int)) ∧
            (strtollConvert e t neg s1).errno = 0) ∨
          (((if neg then -(m : Int) else (m : Int)) < LLONG_MIN ∨
            LLONG_MAX < (if neg then -(m : Int) else (m : Int))) ∧
            (strtollConvert e t neg s1).errno = ERANGE))) ∨
    (literalMagnitude s1 = none ∧
        ((strtollConvert e t neg s1).rest ≠ [] ∨
          ((strtollConvert e t neg s1).value = 0 ∧ (strtollConvert e t neg s1).rest = t ∧
            (strtollConvert e t neg s1).errno = if e then EINVAL else 0))) := by
  unfold strtollConvert
  cases hsub : scanSubject s1 with
  | none =>
    right
    refine ⟨?_, Or.inr ⟨rfl, rfl, rfl⟩⟩
    cases hm : literalMagnitude s1 with
    | none => rfl
    | some m =>
      rw [← scanSubject_eq_iff, hsub] at hm
      cases hm
  | some p =>
    obtain ⟨mag, rest⟩ := p
    by_cases hrest : rest = []
    · subst hrest
      have hm := (scanSubject_eq_iff s1 mag).1 hsub
      left
      refine ⟨mag, hm, ?_, ?_⟩
      · cases neg <;> simp only [Bool.false_eq_true, if_false, if_true] <;> split <;> rfl
      · cases neg
        · simp only [Bool.false_eq_true, if_false]
          by_cases hbig : (mag : Int) > LLONG_MAX
          · right
            rw [if_pos hbig]
            exact ⟨Or.inr hbig, rfl⟩
          · left
            rw [if_neg hbig]
            refine ⟨?_, not_lt.1 hbig, rfl, rfl⟩
            unfold LLONG_MIN
            omega
        · simp only [if_true]
          by_cases hbig : (mag : Int) > -LLONG_MIN
          · right
            rw [if_pos hbig]
            refine ⟨Or.inl ?_, rfl⟩
            unfold LLONG_MIN at hbig ⊢
            omega
          · left
            rw [if_neg hbig]
            refine ⟨?_, ?_, rfl, rfl⟩
            · unfold LLONG_MIN at hbig ⊢
              omega
            · unfold LLONG_MAX
              omega
    · right
      constructor
      · cases hm : literalMagnitude s1 with
        | none => rfl
        | some m =>
          rw [← scanSubject_eq_iff, hsub] at hm
          simp only [Option.some.injEq, Prod.mk.injEq] at hm
          exact absurd hm.2 hrest
      · left
        cases neg <;> simp only [Bool.false_eq_true, if_false, if_true] <;> split <;> exact hrest

/-- The four ways a call of `strtoll` can end, read off the literal that follows the leading
white space: a literal in the `long long` range, a literal outside it, no literal with something
left at `end`, and the empty string. -/
theorem strtoll_cases (e : Bool) (t : List Char) :
    (∃ z, literalValue (t.dropWhile isspace) = some z ∧ LLONG_MIN ≤ z ∧ z ≤ LLONG_MAX ∧
        (strtoll e t).value = z ∧ (strtoll e t).rest = [] ∧ (strtoll e t).errno = 0) ∨
    (∃ z, literalValue (t.dropWhile isspace) = some z ∧ (z < LLONG_MIN ∨ LLONG_MAX < z) ∧
        (strtoll e t).errno = ERANGE) ∨
    (literalValue (t.dropWhile isspace) = none ∧ (strtoll e t).rest ≠ []) ∨
    (literalValue (t.dropWhile isspace) = none ∧ t = [] ∧
        (strtoll e t).value = 0 ∧ (strtoll e t).rest = [] ∧
        (strtoll e t).errno = if e then EINVAL else 0) := by
  have key : ∀ (neg : Bool) (s1 : List Char),
      literalValue (t.dropWhile isspace) =
        (literalMagnitude s1).map (fun n => if neg then -(n : Int) else (n : Int)) →
      strtoll e t = strtollConvert e t neg s1 →
      (∃ z, literalValue (t.dropWhile isspace) = some z ∧ LLONG_MIN ≤ z ∧ z ≤ LLONG_MAX ∧
          (strtoll e t).value = z ∧ (strtoll e t).rest = [] ∧ (strtoll e t).errno = 0) ∨
      (∃ z, literalValue (t.dropWhile isspace) = some z ∧ (z < LLONG_MIN ∨ LLONG_MAX < z) ∧
          (strtoll e t).errno = ERANGE) ∨
      (literalValue (t.dropWhile isspace) = none ∧ (strtoll e t).rest ≠ []) ∨
      (literalValue (t.dropWhile isspace) = none ∧ t = [] ∧
          (strtoll e t).value = 0 ∧ (strtoll e t).rest = [] ∧
          (strtoll e t).errno = if e then EINVAL else 0) := by
    intro neg s1 hlit hst
    rw [hst, hlit]
    rcases strtollConvert_cases e t neg s1 with ⟨m, hm, hrest, h | h⟩ | ⟨hm, h | h⟩
    · left
      exact ⟨_, by rw [hm]; rfl, h.1, h.2.1, h.2.2.1, hrest, h.2.2.2⟩
    · right; left
      exact ⟨_, by rw [hm]; rfl, h.1, h.2⟩
    · right; right; left
      exact ⟨by rw [hm]; rfl, h⟩
    · by_cases ht : t = []
      · right; right; right
        refine ⟨by rw [hm]; rfl, ht, h.1, ?_, h.2.2⟩
        rw [h.2.1, ht]
      · right; right; left
        refine ⟨by rw [hm]; rfl, ?_⟩
        rw [h.2.1]
        exact ht
  obtain ⟨s, hs⟩ : ∃ s, t.dropWhile isspace = s := ⟨_, rfl⟩
  cases s with
  | nil =>
    apply key false []
    · rw [hs]; rfl
    · unfold strtoll; rw [hs]
  | cons c r =>
    by_cases h45 : c.toNat = 45
    · apply key true r
      · rw [hs]; simp [literalValue, h45]
      · unfold strtoll; rw [hs]; simp only [if_pos h45]
    · by_cases h43 : c.toNat = 43
      · apply key false r
        · rw [hs]; simp [literalValue, h45, h43]
        · unfold strtoll; rw [hs]; simp only [if_neg h45, if_pos h43]
      · apply key false (c :: r)
        · rw [hs]; simp [literalValue, h45, h43]
        · unfold strtoll; rw [hs]; simp only [if_neg h45, if_neg h43]

theorem argUint32_ok_iff (e : Bool) (t : List Char) (v : Nat) :
    Command.argUint32 e t = .ok v ↔
      (literalValue (t.dropWhile isspace) = some (v : Int) ∧ (v : Int) ≤ UINT32_MAX) ∨
      (t = [] ∧ e = false ∧ v = 0) := by
  unfold Command.argUint32
  rcases strtoll_cases e t with ⟨z, hz, hlo, hhi, hv, hr, he⟩ | ⟨z, hz, hrange, he⟩ |
    ⟨hz, hr⟩ | ⟨hz, ht, hv, hr, he⟩
  · simp only [hv, hr, he, hz, ne_eq, not_true_eq_false, or_self, if_false]
    by_cases hb : z < 0 ∨ z > UINT32_MAX
    · rw [if_pos hb]
      constructor
      · intro h; cases h
      · rintro (⟨h1, h2⟩ | ⟨h1, _, _⟩)
        · simp only [Option.some.injEq] at h1
          subst h1
          rcases hb with hb | hb <;> omega
        · subst h1
          simp [literalValue] at hz
    · rw [if_neg hb]
      have hb1 : 0 ≤ z := by omega
      have hb2 : z ≤ UINT32_MAX := by omega
      constructor
      · intro h
        left
        have hv2 : z.toNat = v := by simpa using h
        have hzv : z = (v : Int) := by omega
        rw [← hzv]
        exact ⟨rfl, hb2⟩
      · rintro (⟨h1, _⟩ | ⟨h1, _, _⟩)
        · simp only [Option.some.injEq] at h1
          subst h1
          simp
        · subst h1
          simp [literalValue] at hz
  · have hne : (strtoll e t).errno ≠ 0 := by rw [he]; decide
    simp only [ne_eq, hne, not_false_eq_true, true_or, if_true, hz]
    constructor
    · intro h; cases h
    · rintro (⟨h1, h2⟩ | ⟨h1, _, _⟩)
      · simp only [Option.some.injEq] at h1
        subst h1
        unfold LLONG_MIN LLONG_MAX at hrange
        unfold UINT32_MAX at h2
        omega
      · subst h1
        simp [literalValue] at hz
  · simp only [ne_eq, hr, not_false_eq_true, or_true, if_true, hz]
    constructor
    · intro h; cases h
    · rintro (⟨h1, _⟩ | ⟨h1, _, _⟩)
      · cases h1
      · subst h1
        simp [strtoll, strtollConvert, scanSubject] at hr
  · subst ht
    cases e
    · simp only [hv, hr, he, ne_eq, not_true_eq_false, or_self, if_false, Bool.false_eq_true]
      simp [literalValue, UINT32_MAX]
      exact eq_comm
    · have hne : (strtoll true []).errno ≠ 0 := by rw [he]; decide
      simp only [ne_eq, hne, not_false_eq_true, true_or, if_true]
      simp [literalValue]

theorem argUint32_outOfRange_iff (e : Bool) (t : List Char) :
    Command.argUint32 e t = .error .outOfRange ↔
      ∃ z, literalValue (t.dropWhile isspace) = some z ∧ LLONG_MIN ≤ z ∧ z ≤ LLONG_MAX ∧
        (z < 0 ∨ UINT32_MAX < z) := by
  unfold Command.argUint32
  rcases strtoll_cases e t with ⟨z, hz, hlo, hhi, hv, hr, he⟩ | ⟨z, hz, hrange, he⟩ |
    ⟨hz, hr⟩ | ⟨hz, ht, hv, hr, he⟩
  · simp only [hv, hr, he, hz, ne_eq, not_true_eq_false, or_self, if_false]
    by_cases hb : z < 0 ∨ z > UINT32_MAX
    · rw [if_pos hb]
      simp only [true_iff]
      exact ⟨z, rfl, hlo, hhi, hb⟩
    · rw [if_neg hb]
      constructor
      · intro h; cases h
      · rintro ⟨z2, h1, _, _, h2⟩
        simp only [Option.some.injEq] at h1
        subst h1
        exact absurd h2 hb
  · have hne : (strtoll e t).errno ≠ 0 := by rw [he]; decide
    simp only [ne_eq, hne, not_false_eq_true, true_or, if_true, hz]
    constructor
    · intro h; cases h
    · rintro ⟨z2, h1, h2, h3, _⟩
      simp only [Option.some.injEq] at h1
      subst h1
      rcases hrange with hrange | hrange <;> omega
  · simp only [ne_eq, hr, not_false_eq_true, or_true, if_true, hz]
    constructor
    · intro h; cases h
    · rintro ⟨z2, h1, _⟩
      cases h1
  · subst ht
    cases e
    · simp only [hv, hr, he, ne_eq, not_true_eq_false, or_self, if_false, Bool.false_eq_true]
      simp [literalValue, UINT32_MAX]
    · have hne : (strtoll true []).errno ≠ 0 := by rw [he]; decide
      simp only [ne_eq, hne, not_false_eq_true, true_or, if_true]
      simp [literalValue]

theorem argUint32_invalidNumber_iff (e : Bool) (t : List Char) :
    Command.argUint32 e t = .error .invalidNumber ↔
      (literalValue (t.dropWhile isspace) = none ∧ (t ≠ [] ∨ e = true)) ∨
      (∃ z, literalValue (t.dropWhile isspace) = some z ∧ (z < LLONG_MIN ∨ LLONG_MAX < z)) := by
  unfold Command.argUint32
  rcases strtoll_cases e t with ⟨z, hz, hlo, hhi, hv, hr, he⟩ | ⟨z, hz, hrange, he⟩ |
    ⟨hz, hr⟩ | ⟨hz, ht, hv, hr, he⟩
  · simp only [hv, hr, he, hz, ne_eq, not_true_eq_false, or_self, if_false]
    constructor
    · intro h
      split at h <;> cases h
    · rintro (⟨h1, _⟩ | ⟨z2, h1, h2⟩)
      · cases h1
      · simp only [Option.some.injEq] at h1
        subst h1
        rcases h2 with h2 | h2 <;> omega
  · have hne : (strtoll e t).errno ≠ 0 := by rw [he]; decide
    simp only [ne_eq, hne, not_false_eq_true, true_or, if_true, hz, true_iff]
    exact Or.inr ⟨z, rfl, hrange⟩
  · simp only [ne_eq, hr, not_false_eq_true, or_true, if_true, hz, true_iff]
    left
    refine ⟨trivial, Or.inl ?_⟩
    intro ht
    subst ht
    simp [strtoll, strtollConvert, scanSubject] at hr
  · subst ht
    cases e
    · simp only [hv, hr, he, ne_eq, not_true_eq_false, or_self, if_false, Bool.false_eq_true]
      simp [literalValue, UINT32_MAX]
    · have hne : (strtoll true []).errno ≠ 0 := by rw [he]; decide
      simp only [ne_eq, hne, not_false_eq_true, true_or, if_true]
      simp [literalValue]

/-! ## Argument validation: `argUint32` against integer literals -/

/-- C1, as stated, fails: `argUint32` accepts tokens that are not integer literals.  The empty
token is accepted with value 0 when the C library follows ISO C (no `errno` for an empty
conversion), and a token with leading white space such as `" 12"` is accepted under either
library behaviour, because `strtoll` skips the white space. -/
theorem argUint32_accepts_non_literals :
    Command.argUint32 false "".toList = .ok 0 ∧ literalValue "".toList = none ∧
    Command.argUint32 false " 12".toList = .ok 12 ∧
    Command.argUint32 true " 12".toList = .ok 12 ∧ literalValue " 12".toList = none := by
  decide

/-- C1, amended: for every nonempty token `t`, under either library behaviour,
`argUint32(t)` succeeds storing `v` iff `t`, after any leading white space, is an integer
literal (optional sign, then decimal, `0x` hexadecimal or `0` octal digits, at least one digit)
whose value is `v` and lies in `[0, 2^32 - 1]`. -/
theorem argUint32_succeeds_iff_literal (e : Bool) (t : List Char) (v : Nat) (ht : t ≠ []) :
    Command.argUint32 e t = .ok v ↔
      literalValue (t.dropWhile isspace) = some (v : Int) ∧ (v : Int) ≤ UINT32_MAX := by
  rw [argUint32_ok_iff]
  constructor
  · rintro (h | ⟨h, _, _⟩)
    · exact h
    · exact absurd h ht
  · intro h
    exact Or.inl h

/-- C1, amended, at the token `0x1A`: it is accepted with the value 26. -/
theorem argUint32_succeeds_iff_literal_witness :
    "0x1A".toList ≠ [] ∧
    (Command.argUint32 false "0x1A".toList = .ok 26 ↔
      literalValue ("0x1A".toList.dropWhile isspace) = some ((26 : Nat) : Int) ∧
        ((26 : Nat) : Int) ≤ UINT32_MAX) :=
  ⟨by decide, argUint32_succeeds_iff_literal false "0x1A".toList 26 (by decide)⟩

/-- C2, as stated, fails: `9223372036854775808` (2^63) is a well-formed decimal literal whose
value exceeds `2^32 - 1`, yet `argUint32` reports the invalid-number error for it, not the
out-of-range error, because `strtoll` sets `errno` and the `errno` test comes first. -/
theorem argUint32_huge_literal_is_invalid :
    literalValue "9223372036854775808".toList = some 9223372036854775808 ∧
    UINT32_MAX < (9223372036854775808 : Int) ∧
    Command.argUint32 false "9223372036854775808".toList = .error .invalidNumber ∧
    Command.argUint32 true "9223372036854775808".toList = .error .invalidNumber := by
  decide

/-- C2, amended: whenever `argUint32` fails on a token, it reports the out-of-range error
exactly when the token, after any leading white space, is an integer literal whose value fits
a signed 64-bit integer and is negative or exceeds `2^32 - 1`; and it reports the
invalid-number error exactly when the token is not such a literal (characters are left over or
nothing numeric is there) or is a literal whose value does not fit a signed 64-bit integer. -/
theorem argUint32_error_kind (e : Bool) (t : List Char) (err : ArgError)
    (h : Command.argUint32 e t = .error err) :
    (err = .outOfRange ↔
      ∃ z, literalValue (t.dropWhile isspace) = some z ∧ LLONG_MIN ≤ z ∧ z ≤ LLONG_MAX ∧
        (z < 0 ∨ UINT32_MAX < z)) ∧
    (err = .invalidNumber ↔
      literalValue (t.dropWhile isspace) = none ∨
      ∃ z, literalValue (t.dropWhile isspace) = some z ∧ (z < LLONG_MIN ∨ LLONG_MAX < z)) := by
  cases err with
  | invalidNumber =>
    have h1 := (argUint32_invalidNumber_iff e t).1 h
    constructor
    · constructor
      · intro h2; cases h2
      · rintro ⟨z, hz, hlo, hhi, _⟩
        rcases h1 with ⟨hn, _⟩ | ⟨z2, hz2, hr⟩
        · rw [hn] at hz; cases hz
        · rw [hz2] at hz
          simp only [Option.some.injEq] at hz
          subst hz
          rcases hr with hr | hr <;> omega
    · constructor
      · intro _
        rcases h1 with ⟨hn, _⟩ | h1
        · exact Or.inl hn
        · exact Or.inr h1
      · intro _; rfl
  | outOfRange =>
    have h1 := (argUint32_outOfRange_iff e t).1 h
    constructor
    · exact ⟨fun _ => h1, fun _ => rfl⟩
    · constructor
      · intro h2; cases h2
      · obtain ⟨z, hz, hlo, hhi, _⟩ := h1
        rintro (hn | ⟨z2, hz2, hr⟩)
        · rw [hn] at hz; cases hz
        · rw [hz2] at hz
          simp only [Option.some.injEq] at hz
          subst hz
          rcases hr with hr | hr <;> omega

/-- C2, amended, at the token `-1`: the failure is the out-of-range error. -/
theorem argUint32_error_kind_witness :
    Command.argUint32 false "-1".toList = .error .outOfRange ∧
    ((ArgError.outOfRange = .outOfRange ↔
      ∃ z, literalValue ("-1".toList.dropWhile isspace) = some z ∧ LLONG_MIN ≤ z ∧
        z ≤ LLONG_MAX ∧ (z < 0 ∨ UINT32_MAX < z)) ∧
    (ArgError.outOfRange = .invalidNumber ↔
      literalValue ("-1".toList.dropWhile isspace) = none ∨
      ∃ z, literalValue ("-1".toList.dropWhile isspace) = some z ∧
        (z < LLONG_MIN ∨ LLONG_MAX < z))) :=
  ⟨by decide, argUint32_error_kind false "-1".toList .outOfRange (by decide)⟩

/-! ## Arity -/

theorem argNum_fails (argc num : Nat) (h : argc ≠ num) :
    (!Command.argNum argc num) = true := by
  simp [Command.argNum, h]

theorem argNum_passes (argc : Nat) : Command.argNum argc argc = true := by
  simp [Command.argNum]

theorem createFlash_state (env : Env) (s : State) :
    (Command.createFlash env s).1 = { s with flash := env.flashFor env.chipId } := by
  unfold Command.createFlash
  simp only
  split <;> rfl

theorem connect_state (env : Env) (argv : List (List Char)) (s : State) :
    (CommandConnect.invoke env argv s).state =
      if Command.argNum argv.length 2 = true then
        if env.connectOk (arg argv 1) = true then
          { connected := true, flash := env.flashFor env.chipId, mem := s.mem }
        else { s with connected := false }
      else s := by
  unfold CommandConnect.invoke
  cases Command.argNum argv.length 2 <;> cases env.connectOk (arg argv 1) <;>
    simp [Result.ret, Result.call, createFlash_state]

theorem scan_loop_state (env : Env) (s : State) (ports : List (List Char)) :
    (CommandScan.loop env s ports).state =
      if ports.any env.connectOk = true then
        { connected := true, flash := env.flashFor env.chipId, mem := s.mem }
      else { s with connected := false } := by
  induction ports with
  | nil => simp [CommandScan.loop, Result.call]
  | cons port rest ih =>
    unfold CommandScan.loop
    cases hp : env.connectOk port
    · simp [ih, hp]
    · simp [Result.call, createFlash_state, hp]

theorem scan_state (env : Env) (argv : List (List Char)) (s : State) :
    (CommandScan.invoke env argv s).state =
      if Command.argNum argv.length 1 = true then
        if env.ports.any env.connectOk = true then
          { connected := true, flash := env.flashFor env.chipId, mem := s.mem }
        else { s with connected := false }
      else s := by
  unfold CommandScan.invoke
  cases Command.argNum argv.length 1 <;> simp [Result.ret, scan_loop_state]

/-- An operation that is not a successful connection attempt leaves the flash handle alone. -/
theorem SessionOp.apply_flash (op : SessionOp) (s : State) (h : op.succeeds = false) :
    (op.apply s).flash = s.flash := by
  cases op with
  | connect env argv =>
    simp only [SessionOp.apply, connect_state]
    simp only [SessionOp.succeeds, Bool.and_eq_false_iff] at h
    rcases h with h | h <;> simp [h]
    split <;> rfl
  | scan env argv =>
    simp only [SessionOp.apply, scan_state]
    simp only [SessionOp.succeeds, Bool.and_eq_false_iff] at h
    rcases h with h | h <;> simp only [h, Bool.false_eq_true, if_false]
    split <;> rfl
  | disconnect => rfl

theorem SessionOp.run_flash (ops : List SessionOp) (s : State)
    (h : (SessionOp.run ops s).flash ≠ none) :
    s.flash ≠ none ∨ ∃ op ∈ ops, op.succeeds = true := by
  induction ops generalizing s with
  | nil => exact Or.inl h
  | cons op rest ih =>
    have h2 : (SessionOp.run rest (op.apply s)).flash ≠ none := h
    rcases ih (op.apply s) h2 with h3 | ⟨op2, hmem, hs⟩
    · cases hop : op.succeeds
      · left
        rw [SessionOp.apply_flash op s hop] at h3
        exact h3
      · exact Or.inr ⟨op, List.mem_cons_self _ _, hop⟩
    · exact Or.inr ⟨op2, List.mem_cons_of_mem _ hmem, hs⟩

/-- C4, as stated, fails: after a successful `connect` that finds a flash driver, a failed
`connect` attempt leaves `connected == false` with the flash handle still present; so does
`Command::disconnect`.  Nothing in `Command.cpp` ever clears `_flash`. -/
theorem failed_connect_keeps_flash :
    (SessionOp.run [SessionOp.connect Env.sample (tokens ["connect", "ttyACM0"]),
        SessionOp.connect Env.noDevice (tokens ["connect", "ttyACM0"])]
      (State.initial sampleMem)).flash = some { id := 1 } ∧
    (SessionOp.run [SessionOp.connect Env.sample (tokens ["connect", "ttyACM0"]),
        SessionOp.connect Env.noDevice (tokens ["connect", "ttyACM0"])]
      (State.initial sampleMem)).connected = false ∧
    (SessionOp.run [SessionOp.connect Env.sample (tokens ["connect", "ttyACM0"]),
        SessionOp.disconnect] (State.initial sampleMem)).flash = some { id := 1 } ∧
    (SessionOp.run [SessionOp.connect Env.sample (tokens ["connect", "ttyACM0"]),
        SessionOp.disconnect] (State.initial sampleMem)).connected = false := by
  decide

/-- C4, amended: in every state reachable from the initial state by any sequence of connect,
scan and disconnect operations, a flash handle is present only if some connect or scan of the
sequence found a device; and a failed connect attempt leaves `connected == false` and the
flash handle as it was. -/
theorem flash_present_only_after_success (ops : List SessionOp) (mem : Nat → Nat)
    (env : Env) (argv : List (List Char)) (s : State) :
    ((SessionOp.run ops (State.initial mem)).flash ≠ none →
      ∃ op ∈ ops, op.succeeds = true) ∧
    (argv.length = 2 → env.connectOk (arg argv 1) = false →
      (CommandConnect.invoke env argv s).state.connected = false ∧
      (CommandConnect.invoke env argv s).state.flash = s.flash) := by
  constructor
  · intro h
    rcases SessionOp.run_flash ops (State.initial mem) h with h2 | h2
    · exact absurd rfl h2
    · exact h2
  · intro hlen hfail
    rw [connect_state, hlen, argNum_passes, hfail]
    exact ⟨rfl, rfl⟩

/-- C4, amended, at a session of one successful `connect`, and at a failed `connect` on the
connected sample session. -/
theorem flash_present_only_after_success_witness :
    (SessionOp.run [SessionOp.connect Env.sample (tokens ["connect", "ttyACM0"])]
      (State.initial sampleMem)).flash ≠ none ∧
    (∃ op ∈ [SessionOp.connect Env.sample (tokens ["connect", "ttyACM0"])],
      op.succeeds = true) ∧
    (tokens ["connect", "ttyACM0"]).length = 2 ∧
    Env.noDevice.connectOk (arg (tokens ["connect", "ttyACM0"]) 1) = false ∧
    (CommandConnect.invoke Env.noDevice (tokens ["connect", "ttyACM0"])
      State.sample).state.connected = false ∧
    (CommandConnect.invoke Env.noDevice (tokens ["connect", "ttyACM0"])
      State.sample).state.flash = State.sample.flash :=
  ⟨by decide,
    (flash_present_only_after_success
      [SessionOp.connect Env.sample (tokens ["connect", "ttyACM0"])] sampleMem
      Env.noDevice (tokens ["connect", "ttyACM0"]) State.sample).1 (by decide),
    by decide, by decide,
    (flash_present_only_after_success
      [SessionOp.connect Env.sample (tokens ["connect", "ttyACM0"])] sampleMem
      Env.noDevice (tokens ["connect", "ttyACM0"]) State.sample).2 (by decide) (by decide)⟩

/-! ## Gating -/

theorem connected_eq (s : State) : Command.connected s = s.connected := by
  unfold Command.connected
  cases s.connected <;> rfl

theorem flashable_eq (s : State) :
    Command.flashable s = (s.connected && s.flash.isSome) := by
  unfold Command.flashable
  rw [connected_eq]
  cases s.connected <;> cases s.flash <;> rfl

/-- A command that goes through `connected` returns at once on a disconnected session. -/
theorem invoke_disconnected (c : Cmd) (env : Env) (argv : List (List Char)) (s : State)
    (hg : c.isGated = true) (hs : s.connected = false) :
    c.invoke env argv s = Result.ret s := by
  have h1 : Command.connected s = false := by rw [connected_eq, hs]
  have h2 : Command.flashable s = false := by rw [flashable_eq, hs]; rfl
  cases c <;> first
    | (exact absurd hg (by decide))
    | (simp only [Cmd.invoke, CommandDisass.invoke, CommandDump.invoke, CommandErase.invoke,
        CommandGo.invoke, CommandInfo.invoke, CommandLock.invoke, CommandMrb.invoke,
        CommandMrf.invoke, CommandMrw.invoke, CommandMwb.invoke, CommandMwf.invoke,
        CommandMww.invoke, CommandPio.invoke, CommandRead.invoke, CommandUnlock.invoke,
        CommandVerify.invoke, CommandWrite.invoke, h1, h2, Bool.not_false, if_true]
       repeat' split
       all_goals rfl)

/-- A flash command returns at once on a session with no flash handle. -/
theorem invoke_without_flash (c : Cmd) (env : Env) (argv : List (List Char)) (s : State)
    (hf : c.isFlash = true) (hs : s.flash = none) :
    c.invoke env argv s = Result.ret s := by
  have h2 : Command.flashable s = false := by
    rw [flashable_eq, hs]; cases s.connected <;> rfl
  cases c <;> first
    | (exact absurd hf (by decide))
    | (simp only [Cmd.invoke, CommandErase.invoke, CommandInfo.invoke, CommandLock.invoke,
        CommandRead.invoke, CommandUnlock.invoke, CommandVerify.invoke, CommandWrite.invoke,
        h2, Bool.not_false, if_true]
       repeat' split
       all_goals rfl)

/-- C5: `flashable()` returns true iff `connected` is true and a flash handle is held; every
gated command invoked while `connected == false`, and every flash command invoked while
connected with no flash handle, returns at once whatever its arguments: no call is made, the
state (connected flag and flash handle included) is unchanged, nothing is thrown. -/
theorem gated_commands_return (c : Cmd) (env : Env) (argv : List (List Char)) (s : State) :
    (Command.flashable s = true ↔ s.connected = true ∧ s.flash ≠ none) ∧
    (c.isGated = true → s.connected = false → c.invoke env argv s = Result.ret s) ∧
    (c.isFlash = true → s.connected = true → s.flash = none →
      c.invoke env argv s = Result.ret s) := by
  refine ⟨?_, invoke_disconnected c env argv s, fun hf _ hs =>
    invoke_without_flash c env argv s hf hs⟩
  rw [flashable_eq]
  cases s.connected <;> cases s.flash <;> simp

/-- C5 at `mrf` with well-formed arguments on the initial (disconnected) session, and at
`erase` on a connected session without flash handle. -/
theorem gated_commands_return_witness :
    (Cmd.isGated .mrf = true ∧ (State.initial sampleMem).connected = false ∧
      Cmd.invoke .mrf Env.sample (tokens ["mrf", "0", "16", "out.bin"])
        (State.initial sampleMem) = Result.ret (State.initial sampleMem)) ∧
    (Cmd.isFlash .erase = true ∧
      Cmd.invoke .erase Env.sample (tokens ["erase"])
        { connected := true, flash := none, mem := sampleMem }
        = Result.ret { connected := true, flash := none, mem := sampleMem }) :=
  ⟨⟨by decide, by decide,
    (gated_commands_return .mrf Env.sample (tokens ["mrf", "0", "16", "out.bin"])
      (State.initial sampleMem)).2.1 (by decide) (by decide)⟩,
   ⟨by decide,
    (gated_commands_return .erase Env.sample (tokens ["erase"])
      { connected := true, flash := none, mem := sampleMem }).2.2 (by decide) rfl rfl⟩⟩

/-- C6: whatever the prior session state (a flash handle from an earlier connection
included), immediately after a `connect` that succeeds on a device whose chip id has no flash
factory entry, `connected()` returns true and `flashable()` returns false. -/
theorem connect_without_flash_entry (env : Env) (argv : List (List Char)) (s : State)
    (hargc : argv.length = 2) (hok : env.connectOk (arg argv 1) = true)
    (hnone : env.flashFor env.chipId = none) :
    Command.connected (Cmd.invoke .connect env argv s).state = true ∧
    Command.flashable (Cmd.invoke .connect env argv s).state = false := by
  simp only [Cmd.invoke]
  rw [connect_state, hargc, argNum_passes, hok, hnone]
  simp [Command.connected, Command.flashable]

/-- C6 at the sample session, which holds flash driver 1 from an earlier connection. -/
theorem connect_without_flash_entry_witness :
    (tokens ["connect", "ttyACM0"]).length = 2 ∧
    Env.noFlash.connectOk (arg (tokens ["connect", "ttyACM0"]) 1) = true ∧
    Env.noFlash.flashFor Env.noFlash.chipId = none ∧
    State.sample.flash = some { id := 1 } ∧
    Command.connected
      (Cmd.invoke .connect Env.noFlash (tokens ["connect", "ttyACM0"]) State.sample).state
        = true ∧
    Command.flashable
      (Cmd.invoke .connect Env.noFlash (tokens ["connect", "ttyACM0"]) State.sample).state
        = false :=
  ⟨by decide, by decide, by decide, by decide,
    connect_without_flash_entry Env.noFlash (tokens ["connect", "ttyACM0"]) State.sample
      (by decide) (by decide) (by decide)⟩

/-! ## Transfers between target memory and files -/

theorem mrf_loop_zero (env : Env) (s : State) (addr k : Nat) :
    CommandMrf.loop env s addr 0 k = Result.ret s := by
  rw [CommandMrf.loop]
  simp

theorem samba_read_length (mem : Nat → Nat) (addr len : Nat) :
    (Samba.read mem addr len).length = len := by
  simp [Samba.read]

theorem mrf_loop_step (env : Env) (s : State) (addr count k : Nat) (hpos : 0 < count)
    (hread : env.readThrows k = false)
    (hfull : min count 1024 ≤ env.fwriteRet k (min count 1024)) :
    CommandMrf.loop env s addr count k =
      { state := (CommandMrf.loop env s addr (count - min count 1024) (k + 1)).state,
        calls := Call.read addr (min count 1024) ::
          Call.fwrite (Samba.read s.mem addr (min count 1024)) ::
          (CommandMrf.loop env s addr (count - min count 1024) (k + 1)).calls,
        file := Samba.read s.mem addr (min count 1024) ++
          (CommandMrf.loop env s addr (count - min count 1024) (k + 1)).file,
        error := (CommandMrf.loop env s addr (count - min count 1024) (k + 1)).error } := by
  rw [CommandMrf.loop]
  have hm : min (env.fwriteRet k (min count 1024)) (min count 1024) = min count 1024 :=
    Nat.min_eq_right hfull
  simp only [gt_iff_lt, hpos, dite_true, hread, Bool.false_eq_true, if_false, hm, ne_eq,
    not_true_eq_false, dite_false]
  rw [List.take_of_length_le (by rw [samba_read_length])]

/-- A transfer of more than one and at most two chunks, nothing failing: both device reads
are at the starting address. -/
theorem mrf_loop_two_chunks (env : Env) (s : State) (addr count : Nat)
    (hlo : 1024 < count) (hhi : count ≤ 2048)
    (hread : ∀ k, env.readThrows k = false) (hfull : ∀ k n, n ≤ env.fwriteRet k n) :
    CommandMrf.loop env s addr count 0 =
      { state := s,
        calls := [Call.read addr 1024, Call.fwrite (Samba.read s.mem addr 1024),
          Call.read addr (count - 1024), Call.fwrite (Samba.read s.mem addr (count - 1024))],
        file := Samba.read s.mem addr 1024 ++ Samba.read s.mem addr (count - 1024),
        error := none } := by
  have m1 : min count 1024 = 1024 := by omega
  have m2 : min (count - 1024) 1024 = count - 1024 := by omega
  rw [mrf_loop_step env s addr count 0 (by omega) (hread 0) (hfull 0 _), m1,
    mrf_loop_step env s addr (count - 1024) 1 (by omega) (hread 1) (hfull 1 _), m2,
    Nat.sub_self, mrf_loop_zero]
  simp [Result.ret]

theorem mrf_loop_no_fclose (env : Env) (s : State) (addr : Nat) :
    ∀ count k, Call.fclose ∉ (CommandMrf.loop env s addr count k).calls := by
  intro count
  induction count using Nat.strong_induction_on with
  | _ count ih =>
    intro k
    rw [CommandMrf.loop]
    by_cases hpos : count > 0
    · simp only [hpos, dite_true]
      by_cases hread : env.readThrows k = true
      · simp [hread, Result.throw]
      · simp only [hread, Bool.false_eq_true, if_false]
        by_cases hm : min (env.fwriteRet k (min count 1024)) (min count 1024) ≠ min count 1024
        · simp [hm]
        · simp only [hm, dite_false]
          have hm2 := not_not.1 hm
          have := ih (count - min (env.fwriteRet k (min count 1024)) (min count 1024))
            (by omega) (k + 1)
          simpa using this
    · simp [hpos, Result.ret]

theorem mrf_loop_short (env : Env) (s : State) (addr : Nat) :
    ∀ j count k, j * 1024 < count →
      (∀ i, i ≤ j → env.readThrows (k + i) = false) →
      (∀ i, i < j → 1024 ≤ env.fwriteRet (k + i) 1024) →
      env.fwriteRet (k + j) (min (count - j * 1024) 1024) < min (count - j * 1024) 1024 →
      (CommandMrf.loop env s addr count k).error = some Error.fileShort := by
  intro j
  induction j with
  | zero =>
    intro count k hcount hread _ hshort
    have hr := hread 0 (Nat.le_refl 0)
    simp only [Nat.add_zero, Nat.zero_mul, Nat.sub_zero] at hr hshort hcount
    rw [CommandMrf.loop]
    have hne : min (env.fwriteRet k (min count 1024)) (min count 1024) ≠ min count 1024 := by
      omega
    simp [hcount, hr, hne]
  | succ j ih =>
    intro count k hcount hread hfull hshort
    have m1 : min count 1024 = 1024 := by omega
    have hf := hfull 0 (Nat.succ_pos j)
    have hr := hread 0 (Nat.zero_le _)
    simp only [Nat.add_zero] at hf hr
    rw [mrf_loop_step env s addr count k (by omega) hr (by rw [m1]; exact hf), m1]
    simp only
    apply ih (count - 1024) (k + 1) (by omega)
    · intro i hi
      have := hread (i + 1) (by omega)
      rwa [show k + (i + 1) = k + 1 + i by omega] at this
    · intro i hi
      have := hfull (i + 1) (by omega)
      rwa [show k + (i + 1) = k + 1 + i by omega] at this
    · have e1 : count - 1024 - j * 1024 = count - (j + 1) * 1024 := by omega
      have e2 : k + 1 + j = k + (j + 1) := by omega
      rw [e1, e2]
      exact hshort

theorem mrf_invoke_eq (env : Env) (argv : List (List Char)) (s : State) (addr count : Nat)
    (hargc : argv.length = 4)
    (h1 : Command.argUint32 env.einval (arg argv 1) = .ok addr)
    (h2 : Command.argUint32 env.einval (arg argv 2) = .ok count)
    (hc : s.connected = true) (hopen : env.fopenOk (arg argv 3) = true) :
    CommandMrf.invoke env argv s =
      { state := (CommandMrf.loop env s addr count 0).state,
        calls := Call.fopen (arg argv 3) true ::
          ((CommandMrf.loop env s addr count 0).calls ++ [Call.fclose]),
        file := (CommandMrf.loop env s addr count 0).file,
        error := (CommandMrf.loop env s addr count 0).error } := by
  unfold CommandMrf.invoke
  simp [hargc, argNum_passes, h1, h2, connected_eq, hc, hopen]

theorem mwf_loop_done (env : Env) (data : List Nat) (fsize addr : Nat) (s : State)
    (fpos k : Nat) (h : fsize ≤ fpos) :
    CommandMwf.loop env data fsize addr s fpos k = Result.ret s := by
  rw [CommandMwf.loop]
  simp [Nat.not_lt.2 h]

theorem mwf_loop_step (env : Env) (data : List Nat) (fsize addr : Nat) (s : State)
    (fpos k : Nat) (h : fpos < fsize)
    (hbuf : ((data.drop fpos).take (min fsize 1024)).length ≠ 0)
    (hw : env.writeThrows k = false) :
    CommandMwf.loop env data fsize addr s fpos k =
      Result.after (Call.fread (min fsize 1024))
        (Result.after (Call.write addr ((data.drop fpos).take (min fsize 1024)))
          (CommandMwf.loop env data fsize addr
            { s with mem := Samba.write s.mem addr ((data.drop fpos).take (min fsize 1024)) }
            (fpos + ((data.drop fpos).take (min fsize 1024)).length) (k + 1))) := by
  rw [CommandMwf.loop]
  simp only [h, dite_true, hbuf, dite_false, hw, Bool.false_eq_true, if_false]

/-- A file of one full chunk `l1` and a shorter second chunk `l2`, nothing failing: both
chunks are written at the starting address. -/
theorem mwf_loop_two_chunks (env : Env) (s : State) (addr : Nat) (l1 l2 : List Nat)
    (h1 : l1.length = 1024) (h2 : 0 < l2.length) (h3 : l2.length ≤ 1024)
    (hw : ∀ k, env.writeThrows k = false) :
    CommandMwf.loop env (l1 ++ l2) (l1 ++ l2).length addr s 0 0 =
      { state := { s with mem := Samba.write (Samba.write s.mem addr l1) addr l2 },
        calls := [Call.fread 1024, Call.write addr l1, Call.fread 1024, Call.write addr l2],
        file := [], error := none } := by
  have hlen : (l1 ++ l2).length = 1024 + l2.length := by rw [List.length_append, h1]
  have m1 : min (l1 ++ l2).length 1024 = 1024 := by omega
  have c1 : ((l1 ++ l2).drop 0).take 1024 = l1 := by
    rw [List.drop_zero, ← h1, List.take_left']
    rfl
  have c2 : ((l1 ++ l2).drop 1024).take 1024 = l2 := by
    rw [← h1, List.drop_left' rfl, h1]
    exact List.take_of_length_le h3
  rw [mwf_loop_step env _ _ addr s 0 0 (by omega) (by rw [m1, c1]; omega) (hw 0), m1, c1, h1,
    Nat.zero_add,
    mwf_loop_step env _ _ addr _ 1024 1 (by omega) (by rw [m1, c2]; omega) (hw 1), m1, c2,
    mwf_loop_done env _ _ addr _ _ _ (by omega)]
  rfl

theorem mwf_invoke_eq (env : Env) (argv : List (List Char)) (s : State) (addr fsize : Nat)
    (r : Result) (hargc : argv.length = 3)
    (h1 : Command.argUint32 env.einval (arg argv 1) = .ok addr)
    (hc : s.connected = true) (hopen : env.fopenOk (arg argv 2) = true)
    (hseek : env.fseekOk = true) (htell : env.ftellOk = true)
    (hsize : env.ftellSize (arg argv 2) = fsize)
    (hloop : CommandMwf.loop env (env.fileData (arg argv 2)) fsize addr s 0 0 = r)
    (hr : r.error = none) :
    CommandMwf.invoke env argv s =
      { state := r.state,
        calls := [Call.fopen (arg argv 2) false, Call.fseek, Call.ftell, Call.rewind] ++
          r.calls ++ [Call.fclose, Call.report fsize addr],
        file := r.file, error := none } := by
  unfold CommandMwf.invoke
  simp only [hargc, argNum_passes, h1, connected_eq, hc, hopen, hseek, htell, Bool.not_true,
    Bool.false_eq_true, if_false, hsize, hloop]
  rw [hr]

/-- A read that delivers nothing ends the loop of `mwf`: the `break` at `fbytes == 0`. -/
theorem mwf_loop_empty_read (env : Env) (data : List Nat) (fsize addr : Nat) (s : State)
    (fpos k : Nat) (h : fpos < fsize)
    (hbuf : ((data.drop fpos).take (min fsize 1024)).length = 0) :
    CommandMwf.loop env data fsize addr s fpos k =
      Result.call s [Call.fread (min fsize 1024)] := by
  rw [CommandMwf.loop]
  simp only [h, dite_true, hbuf]

/-- On a directory `mwf` asks for one chunk, gets nothing, writes nothing to the device, and
reports the size `ftell` measured. -/
theorem mwf_directory_reads_once :
    (Cmd.invoke .mwf Env.directory (tokens ["mwf", "0", "dir"]) State.erased).calls =
      [Call.fopen "dir".toList false, Call.fseek, Call.ftell, Call.rewind, Call.fread 1024,
        Call.fclose, Call.report (2 ^ 63 - 1) 0] ∧
    (Cmd.invoke .mwf Env.directory (tokens ["mwf", "0", "dir"]) State.erased).error = none := by
  have h2 := mwf_loop_empty_read Env.directory [] (2 ^ 63 - 1) 0 State.erased 0 0
    (by decide) (by simp)
  have h := mwf_invoke_eq Env.directory (tokens ["mwf", "0", "dir"]) State.erased 0
    (2 ^ 63 - 1) _ (by decide) (by decide) rfl rfl rfl rfl rfl h2 rfl
  simp only [Cmd.invoke]
  rw [h]
  exact ⟨by decide, rfl⟩

/-- The measured size of a regular file is the length of its contents. -/
theorem withFile_ftellSize (data : List Nat) (path : List Char) :
    (Env.withFile data).ftellSize path = data.length :=
  rfl

theorem samba_write_singleton (mem : Nat → Nat) (addr b : Nat) :
    Samba.write mem addr [b] (addr % WORD) = b := by
  simp [Samba.write]

/-- A write leaves alone every address it does not reach. -/
theorem samba_write_outside (data : List Nat) (mem : Nat → Nat) (addr a : Nat)
    (h : ∀ i, i < data.length → (addr + i) % WORD ≠ a) :
    Samba.write mem addr data a = mem a := by
  induction data generalizing mem addr with
  | nil => rfl
  | cons b bs ih =>
    rw [Samba.write, ih]
    · have h0 := h 0 (by simp)
      rw [Nat.add_zero] at h0
      exact Function.update_noteq (Ne.symm h0) _ _
    · intro i hi
      have := h (i + 1) (by simpa using hi)
      rwa [show addr + (i + 1) = addr + 1 + i by omega] at this

/-- C7, the code at `mrf 0 1025 out.bin` on the sample session (memory byte `a % 251` at
address `a`): the second chunk is read from address 0 again, not from 1024, so byte 1024 of the
file is the memory byte at 0 (which is 0) where the claim has the memory byte at 1024 (which
is 20).  The loop of `CommandMrf::invoke` never advances `addr`. -/
theorem mrf_rereads_start_address :
    (Cmd.invoke .mrf Env.sample (tokens ["mrf", "0", "1025", "out.bin"]) State.sample).calls =
      [Call.fopen "out.bin".toList true,
        Call.read 0 1024, Call.fwrite (Samba.read sampleMem 0 1024),
        Call.read 0 1, Call.fwrite (Samba.read sampleMem 0 1), Call.fclose] ∧
    (Cmd.invoke .mrf Env.sample (tokens ["mrf", "0", "1025", "out.bin"]) State.sample).error
      = none ∧
    (Cmd.invoke .mrf Env.sample (tokens ["mrf", "0", "1025", "out.bin"]) State.sample).file
      = Samba.read sampleMem 0 1024 ++ Samba.read sampleMem 0 1 ∧
    (Cmd.invoke .mrf Env.sample (tokens ["mrf", "0", "1025", "out.bin"])
      State.sample).file[1024]? = some 0 ∧
    (Samba.read sampleMem 0 1025)[1024]? = some 20 := by
  have h := mrf_invoke_eq Env.sample (tokens ["mrf", "0", "1025", "out.bin"]) State.sample
    0 1025 (by decide) (by decide) (by decide) rfl rfl
  have h2 := mrf_loop_two_chunks Env.sample State.sample 0 1025 (by omega) (by omega)
    (fun _ => rfl) (fun _ n => Nat.le_refl n)
  simp only [Cmd.invoke]
  rw [h, h2]
  refine ⟨rfl, rfl, rfl, ?_, ?_⟩
  · show (Samba.read sampleMem 0 1024 ++ Samba.read sampleMem 0 (1025 - 1024))[1024]? = some 0
    rw [List.getElem?_append_right (by rw [samba_read_length])]
    simp [Samba.read, sampleMem]
  · simp [Samba.read, sampleMem, WORD]

/-- C8, the code at `mwf 0 in.bin` on a session whose memory holds 255 everywhere, the file
holding 1024 zero bytes and then a byte 1: the second chunk is written at address 0 again, not
at 1024, so memory byte 0 ends as 1 where the file has 0, and memory byte 1024 keeps its 255
where the file has 1.  The loop of `CommandMwf::invoke` never advances `addr`. -/
theorem mwf_rewrites_start_address :
    (Cmd.invoke .mwf Env.sample (tokens ["mwf", "0", "in.bin"]) State.erased).calls =
      [Call.fopen "in.bin".toList false, Call.fseek, Call.ftell, Call.rewind,
        Call.fread 1024, Call.write 0 (List.replicate 1024 0),
        Call.fread 1024, Call.write 0 [1], Call.fclose, Call.report 1025 0] ∧
    (Cmd.invoke .mwf Env.sample (tokens ["mwf", "0", "in.bin"]) State.erased).error = none ∧
    (Cmd.invoke .mwf Env.sample (tokens ["mwf", "0", "in.bin"]) State.erased).state.mem 0
      = 1 ∧
    (Env.sample.fileData "in.bin".toList)[0]? = some 0 ∧
    (Cmd.invoke .mwf Env.sample (tokens ["mwf", "0", "in.bin"]) State.erased).state.mem 1024
      = 255 ∧
    (Env.sample.fileData "in.bin".toList)[1024]? = some 1 := by
  have hlen : (List.replicate 1024 0 ++ [1]).length = 1025 := by
    rw [List.length_append, List.length_replicate]
    rfl
  have h2 := mwf_loop_two_chunks Env.sample State.erased 0 (List.replicate 1024 0) [1]
    (List.length_replicate _ _) (by decide) (by decide) (fun _ => rfl)
  rw [hlen] at h2
  have h := mwf_invoke_eq Env.sample (tokens ["mwf", "0", "in.bin"]) State.erased 0 1025 _
    (by decide) (by decide) rfl rfl rfl rfl rfl h2 rfl
  simp only [Cmd.invoke]
  rw [h]
  refine ⟨rfl, rfl, ?_, ?_, ?_, ?_⟩
  · dsimp only
    exact samba_write_singleton _ 0 1
  · show (List.replicate 1024 0 ++ [1])[0]? = some 0
    rw [List.getElem?_append_left (by rw [List.length_replicate]; omega),
      List.getElem?_replicate]
    rfl
  · dsimp only
    rw [samba_write_outside, samba_write_outside]
    · rfl
    · intro i hi
      rw [List.length_replicate] at hi
      unfold WORD
      omega
    · intro i hi
      rw [List.length_singleton] at hi
      unfold WORD
      omega
  · show (List.replicate 1024 0 ++ [1])[1024]? = some 1
    rw [List.getElem?_append_right (by rw [List.length_replicate]), List.length_replicate]
    rfl

/-- C9, the code at `mrf 0 1025 f.bin` on the sample session followed by `mwf 0 f.bin` on a
session whose memory has been altered to 255 everywhere: both commands complete, and memory
byte 1024 stays 255 where the original held 20.  Neither loop ever advances `addr`, so the
second chunk of the file is taken from, and put back at, address 0. -/
theorem mrf_mwf_round_trip_loses_second_chunk :
    (Cmd.invoke .mrf Env.sample (tokens ["mrf", "0", "1025", "f.bin"]) State.sample).error
      = none ∧
    (Cmd.invoke .mwf
      (Env.withFile
        (Cmd.invoke .mrf Env.sample (tokens ["mrf", "0", "1025", "f.bin"]) State.sample).file)
      (tokens ["mwf", "0", "f.bin"]) State.erased).error = none ∧
    State.sample.mem 1024 = 20 ∧
    (Cmd.invoke .mwf
      (Env.withFile
        (Cmd.invoke .mrf Env.sample (tokens ["mrf", "0", "1025", "f.bin"]) State.sample).file)
      (tokens ["mwf", "0", "f.bin"]) State.erased).state.mem 1024 = 255 := by
  have h := mrf_invoke_eq Env.sample (tokens ["mrf", "0", "1025", "f.bin"]) State.sample
    0 1025 (by decide) (by decide) (by decide) rfl rfl
  have h2 := mrf_loop_two_chunks Env.sample State.sample 0 1025 (by omega) (by omega)
    (fun _ => rfl) (fun _ n => Nat.le_refl n)
  have hfile :
      (Cmd.invoke .mrf Env.sample (tokens ["mrf", "0", "1025", "f.bin"]) State.sample).file
        = Samba.read sampleMem 0 1024 ++ Samba.read sampleMem 0 1 := by
    simp only [Cmd.invoke]
    rw [h, h2]
    rfl
  have herr :
      (Cmd.invoke .mrf Env.sample (tokens ["mrf", "0", "1025", "f.bin"]) State.sample).error
        = none := by
    simp only [Cmd.invoke]
    rw [h, h2]
  rw [hfile]
  have h3 := mwf_loop_two_chunks
    (Env.withFile (Samba.read sampleMem 0 1024 ++ Samba.read sampleMem 0 1)) State.erased 0
    (Samba.read sampleMem 0 1024) (Samba.read sampleMem 0 1)
    (samba_read_length _ _ _) (by rw [samba_read_length]; omega)
    (by rw [samba_read_length]; omega) (fun _ => rfl)
  have h4 := mwf_invoke_eq
    (Env.withFile (Samba.read sampleMem 0 1024 ++ Samba.read sampleMem 0 1))
    (tokens ["mwf", "0", "f.bin"]) State.erased 0 _ _
    (by decide) (by decide) rfl rfl rfl rfl (withFile_ftellSize _ _) h3 rfl
  refine ⟨herr, ?_, by decide, ?_⟩
  · simp only [Cmd.invoke]
    rw [h4]
  · simp only [Cmd.invoke]
    rw [h4]
    dsimp only
    rw [samba_write_outside, samba_write_outside]
    · rfl
    · intro i hi
      rw [samba_read_length] at hi
      unfold WORD
      omega
    · intro i hi
      rw [samba_read_length] at hi
      unfold WORD
      omega

/-- When `fopen` appears among the calls of `mrf` and succeeded, every test before it passed,
and the calls are `fopen`, those of the loop, and `fclose`. -/
theorem mrf_opened (env : Env) (argv : List (List Char)) (s : State)
    (hopen : Call.fopen (arg argv 3) true ∈ (CommandMrf.invoke env argv s).calls)
    (hok : env.fopenOk (arg argv 3) = true) :
    ∃ addr count, Command.argUint32 env.einval (arg argv 1) = .ok addr ∧
      Command.argUint32 env.einval (arg argv 2) = .ok count ∧
      CommandMrf.invoke env argv s =
        { state := (CommandMrf.loop env s addr count 0).state,
          calls := Call.fopen (arg argv 3) true ::
            ((CommandMrf.loop env s addr count 0).calls ++ [Call.fclose]),
          file := (CommandMrf.loop env s addr count 0).file,
          error := (CommandMrf.loop env s addr count 0).error } := by
  by_cases hargc : argv.length = 4
  · cases h1 : Command.argUint32 env.einval (arg argv 1) with
    | error e =>
      simp [CommandMrf.invoke, hargc, argNum_passes, h1, Result.ret] at hopen
    | ok addr =>
      cases h2 : Command.argUint32 env.einval (arg argv 2) with
      | error e =>
        simp [CommandMrf.invoke, hargc, argNum_passes, h1, h2, Result.ret] at hopen
      | ok count =>
        cases hc : s.connected with
        | false =>
          simp [CommandMrf.invoke, hargc, argNum_passes, h1, h2, connected_eq, hc,
            Result.ret] at hopen
        | true =>
          exact ⟨addr, count, rfl, rfl, mrf_invoke_eq env argv s addr count hargc h1 h2 hc hok⟩
  · have hfail := argNum_fails argv.length 4 hargc
    simp [CommandMrf.invoke, hfail, Result.ret] at hopen

/-- C10: on every execution of `mrf` in which the destination file was opened, however it ends
(normal completion, short write, an error thrown by the device read), `fclose` is called
exactly once and is the last call made, so after every file write and before the command
returns or the error propagates; and if the file write of some chunk `j` returns fewer bytes
than requested, the chunks before it having been read and written whole, the command fails
with `FileShortError`. -/
theorem mrf_closes_file_once (env : Env) (argv : List (List Char)) (s : State)
    (hopen : Call.fopen (arg argv 3) true ∈ (Cmd.invoke .mrf env argv s).calls)
    (hok : env.fopenOk (arg argv 3) = true) :
    (Cmd.invoke .mrf env argv s).calls.count Call.fclose = 1 ∧
    (Cmd.invoke .mrf env argv s).calls.getLast? = some Call.fclose ∧
    ∀ addr count j,
      Command.argUint32 env.einval (arg argv 1) = .ok addr →
      Command.argUint32 env.einval (arg argv 2) = .ok count →
      j * 1024 < count →
      (∀ i, i ≤ j → env.readThrows i = false) →
      (∀ i, i < j → 1024 ≤ env.fwriteRet i 1024) →
      env.fwriteRet j (min (count - j * 1024) 1024) < min (count - j * 1024) 1024 →
      (Cmd.invoke .mrf env argv s).error = some Error.fileShort := by
  simp only [Cmd.invoke] at hopen ⊢
  obtain ⟨addr, count, h1, h2, heq⟩ := mrf_opened env argv s hopen hok
  rw [heq]
  refine ⟨?_, ?_, ?_⟩
  · have hno := mrf_loop_no_fclose env s addr count 0
    simp only [List.count_cons, List.count_append, List.count_nil]
    rw [List.count_eq_zero_of_not_mem hno]
    simp
  · dsimp only
    rw [← List.cons_append, List.getLast?_concat]
  · intro addr2 count2 j ha hcnt hj hread hfull hshort
    rw [h1] at ha
    rw [h2] at hcnt
    cases ha
    cases hcnt
    dsimp only
    apply mrf_loop_short env s addr j count 0 hj
    · intro i hi
      rw [Nat.zero_add]
      exact hread i hi
    · intro i hi
      rw [Nat.zero_add]
      exact hfull i hi
    · rw [Nat.zero_add]
      exact hshort

/-- C10 at `mrf 0 16 out.bin` on the sample session with a destination that takes no byte:
the file is opened, the one write is short, the command fails with `FileShortError`, and
`fclose` is called once, last. -/
theorem mrf_closes_file_once_witness :
    Call.fopen (arg (tokens ["mrf", "0", "16", "out.bin"]) 3) true ∈
      (Cmd.invoke .mrf Env.diskFull (tokens ["mrf", "0", "16", "out.bin"]) State.sample).calls ∧
    Env.diskFull.fopenOk (arg (tokens ["mrf", "0", "16", "out.bin"]) 3) = true ∧
    (Cmd.invoke .mrf Env.diskFull (tokens ["mrf", "0", "16", "out.bin"])
      State.sample).calls.count Call.fclose = 1 ∧
    (Cmd.invoke .mrf Env.diskFull (tokens ["mrf", "0", "16", "out.bin"])
      State.sample).calls.getLast? = some Call.fclose ∧
    (Cmd.invoke .mrf Env.diskFull (tokens ["mrf", "0", "16", "out.bin"])
      State.sample).error = some Error.fileShort := by
  have hopen : Call.fopen (arg (tokens ["mrf", "0", "16", "out.bin"]) 3) true ∈
      (Cmd.invoke .mrf Env.diskFull (tokens ["mrf", "0", "16", "out.bin"])
        State.sample).calls := by
    simp only [Cmd.invoke]
    rw [mrf_invoke_eq Env.diskFull (tokens ["mrf", "0", "16", "out.bin"]) State.sample 0 16
      (by decide) (by decide) (by decide) rfl rfl]
    exact List.mem_cons_self _ _
  have h := mrf_closes_file_once Env.diskFull (tokens ["mrf", "0", "16", "out.bin"])
    State.sample hopen rfl
  exact ⟨hopen, rfl, h.1, h.2.1,
    h.2.2 0 16 0 (by decide) (by decide) (by decide) (fun _ _ => rfl)
      (fun i hi => absurd hi (Nat.not_lt_zero i)) (by decide)⟩

/-! ## Binary strings -/

/-- C13, as stated, fails: `binstr(0xAA, 8)` is `10101010`, without a space; the loop puts a
space after bits 24, 16, 8 and 0 only, and the one after bit 0 is overwritten. -/
theorem binstr_aa_has_no_space :
    Command.binstr 0xAA 8 = some "10101010".toList ∧
    Command.binstr 0xAA 8 ≠ some "1010 1010".toList := by
  decide

/-- C13, amended: `binstr(0xAA, 8)` returns the string `10101010` and `binstr(1, 4)` returns the
string `0001`. -/
theorem binstr_examples :
    Command.binstr 0xAA 8 = some "10101010".toList ∧
    Command.binstr 1 4 = some "0001".toList := by
  decide

/-! ## Lock and unlock -/

/-- C20, the code at `unlock 1` on the sample session (connected, flash driver present): the
flash call is `_flasher.lock("1", true)`, the very call `lock 1` makes; the claim has `false`
for `unlock`. -/
theorem unlock_passes_true :
    Command.flashable State.sample = true ∧
    (Cmd.invoke .unlock Env.sample (tokens ["unlock", "1"]) State.sample).calls
      = [Call.flashLock "1".toList true] ∧
    (Cmd.invoke .lock Env.sample (tokens ["lock", "1"]) State.sample).calls
      = [Call.flashLock "1".toList true] := by
  decide

/-! ## Pin operations: the base address -/

theorem chipId_eproc (chipId : Nat) : (chipId >>> 5) &&& 0x7 = chipId / 2 ^ 5 % 8 := by
  rw [Nat.shiftRight_eq_div_pow]
  exact Nat.and_pow_two_sub_one_eq_mod _ 3

theorem chipId_arch (chipId : Nat) : (chipId >>> 20) &&& 0xff = chipId / 2 ^ 20 % 256 := by
  rw [Nat.shiftRight_eq_div_pow]
  exact Nat.and_pow_two_sub_one_eq_mod _ 8

/-- C15: for every chip id and port letter in {a, b, c}, with `eproc` the bits [5:7] and
`arch` the bits [20:27] of the chip id, the resolved base is (a, b, c) ->
(0x400e0c00, 0x400e0e00, 0x400e1000) when `eproc == 3` and `0x80 <= arch <= 0x81`;
(0x400e0e00, 0x400e1000, 0x400e1200) when `eproc == 3` and `arch` is outside that range;
(0xfffff400, 0xfffff600, 0xfffff800) when `eproc != 3`. -/
theorem pio_base_tables (chipId : Nat) (port : Char)
    (hport : port = 'a' ∨ port = 'b' ∨ port = 'c') :
    CommandPio.base chipId port =
      if chipId / 2 ^ 5 % 8 = 3 then
        if 0x80 ≤ chipId / 2 ^ 20 % 256 ∧ chipId / 2 ^ 20 % 256 ≤ 0x81 then
          (if port = 'a' then 0x400e0c00 else if port = 'b' then 0x400e0e00 else 0x400e1000)
        else
          (if port = 'a' then 0x400e0e00 else if port = 'b' then 0x400e1000 else 0x400e1200)
      else
        (if port = 'a' then 0xfffff400 else if port = 'b' then 0xfffff600 else 0xfffff800) := by
  unfold CommandPio.base
  simp only [chipId_eproc, chipId_arch, ge_iff_le]
  rcases hport with h | h | h <;> subst h <;> simp

/-- C15 at the three examples of the text: a SAM3U chip id (`eproc` 3, `arch` 0x80), a chip id
with `eproc` 3 and `arch` 0x05, and one with `eproc` 1, each for port `a`. -/
theorem pio_base_tables_witness :
    (('a' : Char) = 'a' ∨ ('a' : Char) = 'b' ∨ ('a' : Char) = 'c') ∧
    CommandPio.base 0x08000060 'a' = 0x400e0c00 ∧
    CommandPio.base 0x00500060 'a' = 0x400e0e00 ∧
    CommandPio.base 0x00000020 'a' = 0xfffff400 :=
  ⟨Or.inl rfl,
    (pio_base_tables 0x08000060 'a' (Or.inl rfl)).trans (by decide),
    (pio_base_tables 0x00500060 'a' (Or.inl rfl)).trans (by decide),
    (pio_base_tables 0x00000020 'a' (Or.inl rfl)).trans (by decide)⟩


theorem and_one_shiftLeft_ne_zero (value b : Nat) :
    value &&& (1 <<< b) ≠ 0 ↔ value / 2 ^ b % 2 = 1 := by
  rw [Nat.one_shiftLeft, Nat.and_two_pow, Nat.testBit_to_div_mod]
  by_cases h : value / 2 ^ b % 2 = 1
  · simp [h]
  · simp [h]

theorem binstrLoop_succ (value n : Nat) :
    Command.binstrLoop value (n + 1) =
      bitChar value n :: (if n % 8 = 0 then ' ' :: Command.binstrLoop value n
        else Command.binstrLoop value n) := by
  rw [Command.binstrLoop]
  unfold bitChar
  by_cases h : value / 2 ^ n % 2 = 1
  · rw [if_pos ((and_one_shiftLeft_ne_zero value n).2 h), if_pos h]
  · rw [if_neg (fun hh => h ((and_one_shiftLeft_ne_zero value n).1 hh)), if_neg h]

theorem groupedBits_succ (value n : Nat) :
    groupedBits value (n + 1) =
      (if n % 8 = 0 ∧ 0 < n then [bitChar value n, ' '] else [bitChar value n]) ++
        groupedBits value n := by
  unfold groupedBits
  rw [List.range_succ, List.reverse_append]
  simp

theorem binstrLoop_ne_nil (value n : Nat) : Command.binstrLoop value (n + 1) ≠ [] := by
  rw [binstrLoop_succ]
  exact List.cons_ne_nil _ _

theorem binstrLoop_dropLast (value : Nat) :
    ∀ n, (Command.binstrLoop value (n + 1)).dropLast = groupedBits value (n + 1) := by
  intro n
  induction n with
  | zero =>
    rw [binstrLoop_succ, groupedBits_succ]
    simp [Command.binstrLoop, groupedBits]
  | succ n ih =>
    rw [binstrLoop_succ, groupedBits_succ, ← ih]
    have hne := binstrLoop_ne_nil value n
    by_cases h : (n + 1) % 8 = 0
    · rw [if_pos h, if_pos ⟨h, Nat.succ_pos n⟩]
      rw [List.dropLast_cons_of_ne_nil (List.cons_ne_nil _ _),
        List.dropLast_cons_of_ne_nil hne]
      rfl
    · rw [if_neg h, if_neg (fun hh => h hh.1)]
      rw [List.dropLast_cons_of_ne_nil hne]
      rfl

theorem binstrLoop_length (value : Nat) :
    ∀ n, (Command.binstrLoop value n).length = n + (n + 7) / 8 := by
  intro n
  induction n with
  | zero => rfl
  | succ n ih =>
    rw [binstrLoop_succ]
    by_cases h : n % 8 = 0
    · rw [if_pos h, List.length_cons, List.length_cons, ih]
      omega
    · rw [if_neg h, List.length_cons, ih]
      omega

theorem bitChar_cases (value b : Nat) : bitChar value b = '0' ∨ bitChar value b = '1' := by
  unfold bitChar
  split
  · exact Or.inr rfl
  · exact Or.inl rfl

theorem bitChar_ne_space (value b : Nat) : bitChar value b ≠ ' ' := by
  rcases bitChar_cases value b with h | h <;> rw [h] <;> decide

theorem groupedBits_chars (value : Nat) :
    ∀ n, ∀ c ∈ groupedBits value n, c = '0' ∨ c = '1' ∨ c = ' ' := by
  intro n
  induction n with
  | zero => intro c hc; simp [groupedBits] at hc
  | succ n ih =>
    intro c hc
    rw [groupedBits_succ, List.mem_append] at hc
    rcases hc with hc | hc
    · have hb := bitChar_cases value n
      split at hc
      · simp only [List.mem_cons, List.mem_singleton, List.not_mem_nil, or_false] at hc
        rcases hc with hc | hc
        · rw [hc]; rcases hb with hb | hb
          · exact Or.inl hb
          · exact Or.inr (Or.inl hb)
        · exact Or.inr (Or.inr hc)
      · simp only [List.mem_singleton] at hc
        rw [hc]; rcases hb with hb | hb
        · exact Or.inl hb
        · exact Or.inr (Or.inl hb)
    · exact ih c hc

theorem groupedBits_filter (value : Nat) :
    ∀ n, (groupedBits value n).filter (fun c => decide (c ≠ ' ')) =
      (List.range n).reverse.map (bitChar value) := by
  intro n
  induction n with
  | zero => simp [groupedBits]
  | succ n ih =>
    rw [groupedBits_succ, List.filter_append, ih, List.range_succ, List.reverse_append]
    have hb := bitChar_ne_space value n
    split <;> simp [List.filter_cons, hb]

theorem groupedBits_head (value n : Nat) :
    (groupedBits value (n + 1)).head? = some (bitChar value n) := by
  rw [groupedBits_succ]
  split <;> rfl

theorem groupedBits_getLast (value : Nat) :
    ∀ n, (groupedBits value (n + 1)).getLast? = some (bitChar value 0) := by
  intro n
  induction n with
  | zero =>
    rw [groupedBits_succ]
    simp [groupedBits]
  | succ n ih =>
    rw [groupedBits_succ, List.getLast?_append, ih]
    rfl

/-- C14: for every value and every `bits` in [1, 32], `binstr(value, bits)` returns a string
over `0`, `1` and space which is the `bits` least-significant bits of the value, most
significant first, with a single space exactly between bit `8k` and bit `8k - 1` for each `k`
with `0 < 8k < bits`: with the spaces removed it is the bits themselves, it begins with the
top bit and ends with bit 0 (no leading or trailing space), and its length is
`bits + ceil(bits / 8) - 1`. -/
theorem binstr_grouped (value bits : Nat) (hbits : 1 ≤ bits ∧ bits ≤ 32) :
    ∃ str, Command.binstr value bits = some str ∧
      str = groupedBits value bits ∧
      (∀ c ∈ str, c = '0' ∨ c = '1' ∨ c = ' ') ∧
      str.filter (fun c => decide (c ≠ ' ')) = (List.range bits).reverse.map (bitChar value) ∧
      str.head? = some (bitChar value (bits - 1)) ∧
      str.getLast? = some (bitChar value 0) ∧
      str.length = bits + (bits + 7) / 8 - 1 := by
  obtain ⟨n, rfl⟩ : ∃ n, bits = n + 1 := ⟨bits - 1, by omega⟩
  refine ⟨groupedBits value (n + 1), ?_, rfl, groupedBits_chars value _,
    groupedBits_filter value _, groupedBits_head value n, groupedBits_getLast value n, ?_⟩
  · unfold Command.binstr
    rw [if_pos ⟨hbits.2, by omega⟩, binstrLoop_dropLast]
  · rw [← binstrLoop_dropLast, List.length_dropLast, binstrLoop_length]

/-- C14 at `binstr(0x1ff, 9)`: the string is `1 11111111`. -/
theorem binstr_grouped_witness :
    (1 ≤ 9 ∧ 9 ≤ 32) ∧
    ∃ str, Command.binstr 0x1ff 9 = some str ∧
      str = groupedBits 0x1ff 9 ∧
      (∀ c ∈ str, c = '0' ∨ c = '1' ∨ c = ' ') ∧
      str.filter (fun c => decide (c ≠ ' ')) = (List.range 9).reverse.map (bitChar 0x1ff) ∧
      str.head? = some (bitChar 0x1ff (9 - 1)) ∧
      str.getLast? = some (bitChar 0x1ff 0) ∧
      str.length = 9 + (9 + 7) / 8 - 1 :=
  ⟨by decide, binstr_grouped 0x1ff 9 (by decide)⟩

/-! ## Hex dumps -/

theorem hexdumpRows_zero (addr : Nat) (buf : List Nat) :
    Command.hexdumpRows addr buf 0 = [] := by
  rw [Command.hexdumpRows]
  simp

theorem hexdumpRows_pos (addr : Nat) (buf : List Nat) (count : Nat) (h : 0 < count) :
    Command.hexdumpRows addr buf count =
      { key := addr &&& 0xFFFFFFF0,
        lpad := addr % 16,
        bytes := (List.range (Command.hexdumpSize addr count)).map
          (fun offset => buf.getD offset 0),
        rpad := 16 - min (addr % 16 + count) 16 } ::
      Command.hexdumpRows ((addr + Command.hexdumpSize addr count) % WORD)
        (buf.drop (Command.hexdumpSize addr count)) (count - Command.hexdumpSize addr count) := by
  rw [Command.hexdumpRows]
  simp only [gt_iff_lt, h, if_true]

/-- The size of a row: at least one byte, no more than are left, and either all that are left
or what fills the row up to the next 16-byte boundary. -/
theorem hexdumpSize_spec (addr count : Nat) (h : 0 < count) :
    0 < Command.hexdumpSize addr count ∧ Command.hexdumpSize addr count ≤ count ∧
    addr % 16 + Command.hexdumpSize addr count + (16 - min (addr % 16 + count) 16) = 16 ∧
    (Command.hexdumpSize addr count < count →
      16 - min (addr % 16 + count) 16 = 0 ∧
      ((addr + Command.hexdumpSize addr count) % WORD) % 16 = 0 ∧
      Command.hexdumpSize addr count = 16 - addr % 16) := by
  unfold Command.hexdumpSize WORD
  omega

theorem hexdumpRows_length (count : Nat) :
    ∀ addr buf, (Command.hexdumpRows addr buf count).length =
      if count = 0 then 0 else (addr % 16 + count + 15) / 16 := by
  induction count using Nat.strong_induction_on with
  | _ count ih =>
    intro addr buf
    by_cases h : count = 0
    · subst h
      rw [hexdumpRows_zero]
      rfl
    · have hpos : 0 < count := Nat.pos_of_ne_zero h
      obtain ⟨h1, h2, h3, h4⟩ := hexdumpSize_spec addr count hpos
      rw [hexdumpRows_pos addr buf count hpos, List.length_cons,
        ih (count - Command.hexdumpSize addr count) (by omega), if_neg h]
      by_cases hlast : Command.hexdumpSize addr count = count
      · rw [if_pos (by omega)]
        omega
      · obtain ⟨_, h5, h6⟩ := h4 (by omega)
        rw [if_neg (by omega), h5]
        omega

theorem hexdumpRows_cells (count : Nat) :
    ∀ addr buf, ∀ r ∈ Command.hexdumpRows addr buf count,
      r.lpad + r.bytes.length + r.rpad = 16 := by
  induction count using Nat.strong_induction_on with
  | _ count ih =>
    intro addr buf r hr
    by_cases h : count = 0
    · subst h
      rw [hexdumpRows_zero] at hr
      cases hr
    · have hpos : 0 < count := Nat.pos_of_ne_zero h
      obtain ⟨h1, h2, h3, _⟩ := hexdumpSize_spec addr count hpos
      rw [hexdumpRows_pos addr buf count hpos, List.mem_cons] at hr
      rcases hr with hr | hr
      · subst hr
        simp only [List.length_map, List.length_range]
        exact h3
      · exact ih _ (by omega) _ _ r hr

/-- From an aligned address on, no row is padded on the left. -/
theorem hexdumpRows_aligned (count : Nat) :
    ∀ addr buf, addr % 16 = 0 → ∀ r ∈ Command.hexdumpRows addr buf count, r.lpad = 0 := by
  induction count using Nat.strong_induction_on with
  | _ count ih =>
    intro addr buf ha r hr
    by_cases h : count = 0
    · subst h
      rw [hexdumpRows_zero] at hr
      cases hr
    · have hpos : 0 < count := Nat.pos_of_ne_zero h
      obtain ⟨h1, h2, h3, h4⟩ := hexdumpSize_spec addr count hpos
      rw [hexdumpRows_pos addr buf count hpos, List.mem_cons] at hr
      rcases hr with hr | hr
      · subst hr
        exact ha
      · by_cases hlast : Command.hexdumpSize addr count = count
        · rw [hlast, Nat.sub_self, hexdumpRows_zero] at hr
          cases hr
        · exact ih _ (by omega) _ _ (h4 (by omega)).2.1 r hr

theorem hexdumpRows_tail_lpad (addr : Nat) (buf : List Nat) (count : Nat) :
    ∀ r ∈ (Command.hexdumpRows addr buf count).tail, r.lpad = 0 := by
  intro r hr
  by_cases h : count = 0
  · subst h
    rw [hexdumpRows_zero] at hr
    cases hr
  · have hpos : 0 < count := Nat.pos_of_ne_zero h
    obtain ⟨h1, h2, h3, h4⟩ := hexdumpSize_spec addr count hpos
    rw [hexdumpRows_pos addr buf count hpos, List.tail_cons] at hr
    by_cases hlast : Command.hexdumpSize addr count = count
    · rw [hlast, Nat.sub_self, hexdumpRows_zero] at hr
      cases hr
    · exact hexdumpRows_aligned _ _ _ (h4 (by omega)).2.1 r hr

theorem hexdumpRows_dropLast_rpad (count : Nat) :
    ∀ addr buf, ∀ r ∈ (Command.hexdumpRows addr buf count).dropLast, r.rpad = 0 := by
  induction count using Nat.strong_induction_on with
  | _ count ih =>
    intro addr buf r hr
    by_cases h : count = 0
    · subst h
      rw [hexdumpRows_zero] at hr
      cases hr
    · have hpos : 0 < count := Nat.pos_of_ne_zero h
      obtain ⟨h1, h2, h3, h4⟩ := hexdumpSize_spec addr count hpos
      rw [hexdumpRows_pos addr buf count hpos] at hr
      by_cases hlast : Command.hexdumpSize addr count = count
      · rw [hlast, Nat.sub_self, hexdumpRows_zero] at hr
        cases hr
      · have hne : Command.hexdumpRows ((addr + Command.hexdumpSize addr count) % WORD)
            (buf.drop (Command.hexdumpSize addr count))
            (count - Command.hexdumpSize addr count) ≠ [] := by
          intro hnil
          have hl := hexdumpRows_length (count - Command.hexdumpSize addr count)
            ((addr + Command.hexdumpSize addr count) % WORD)
            (buf.drop (Command.hexdumpSize addr count))
          rw [hnil, if_neg (by omega)] at hl
          simp only [List.length_nil] at hl
          omega
        rw [List.dropLast_cons_of_ne_nil hne, List.mem_cons] at hr
        rcases hr with hr | hr
        · subst hr
          exact (h4 (by omega)).1
        · exact ih _ (by omega) _ _ r hr

theorem range_map_getD (buf : List Nat) (n : Nat) (h : n ≤ buf.length) :
    (List.range n).map (fun offset => buf.getD offset 0) = buf.take n := by
  apply List.ext_getElem
  · simp [h]
  · intro i h1 h2
    simp only [List.length_map, List.length_range] at h1
    simp only [List.getElem_map, List.getElem_range, List.getElem_take]
    exact List.getD_eq_getElem _ _ (by omega)

theorem hexdumpRows_bytes (count : Nat) :
    ∀ addr buf, count ≤ buf.length →
      ((Command.hexdumpRows addr buf count).map HexRow.bytes).flatten = buf.take count := by
  induction count using Nat.strong_induction_on with
  | _ count ih =>
    intro addr buf hbuf
    by_cases h : count = 0
    · subst h
      rw [hexdumpRows_zero]
      rfl
    · have hpos : 0 < count := Nat.pos_of_ne_zero h
      obtain ⟨h1, h2, h3, h4⟩ := hexdumpSize_spec addr count hpos
      rw [hexdumpRows_pos addr buf count hpos, List.map_cons, List.flatten_cons,
        ih _ (by omega) _ _ (by rw [List.length_drop]; omega),
        range_map_getD buf _ (by omega)]
      dsimp only
      have hadd := List.take_add buf (Command.hexdumpSize addr count)
        (count - Command.hexdumpSize addr count)
      rw [Nat.add_sub_cancel' h2] at hadd
      exact hadd.symm

theorem hexDigit_eq : ∀ d, d < 16 → hexDigit d = lowerHexDigits.getD d '?' := by
  decide

theorem hex02_eq_hexCell (b : Nat) (h : b < 256) : hex02 b ++ [' '] = hexCell b := by
  unfold hex02 hexCell
  have h1 : b / 16 % 16 = b / 16 := by omega
  rw [h1, hexDigit_eq (b / 16) (by omega), hexDigit_eq (b % 16) (by omega)]
  rfl

theorem ascii_eq_asciiCell (b : Nat) :
    (if isprint b = true then Char.ofNat b else '.') = asciiCell b := by
  unfold isprint asciiCell
  by_cases h : 0x20 ≤ b ∧ b ≤ 0x7e
  · rw [if_pos (by simpa using h), if_pos h]
  · rw [if_neg (by simpa using h), if_neg h]

theorem hexCells_length (bytes : List Nat) :
    ((bytes.map (fun b => hex02 b ++ [' '])).flatten).length = 3 * bytes.length := by
  induction bytes with
  | nil => rfl
  | cons b bs ih =>
    rw [List.map_cons, List.flatten_cons, List.length_append, ih, List.length_cons]
    simp only [hex02, List.length_append, List.length_cons, List.length_nil]
    omega

theorem hexColumn_length (r : HexRow) :
    r.hexColumn.length = 3 * (r.lpad + r.bytes.length + r.rpad) := by
  unfold HexRow.hexColumn blanks
  rw [List.length_append, List.length_append, hexCells_length, List.length_replicate,
    List.length_replicate]
  omega

theorem asciiColumn_length (r : HexRow) :
    r.asciiColumn.length = r.lpad + r.bytes.length + r.rpad := by
  unfold HexRow.asciiColumn blanks
  rw [List.length_append, List.length_append, List.length_map, List.length_replicate,
    List.length_replicate]

theorem hexColumn_cells (r : HexRow) (h : ∀ b ∈ r.bytes, b < 256) :
    r.hexColumn = blanks (3 * r.lpad) ++ (r.bytes.map hexCell).flatten ++ blanks (3 * r.rpad) := by
  unfold HexRow.hexColumn
  congr 3
  apply List.map_congr_left
  intro b hb
  exact hex02_eq_hexCell b (h b hb)

theorem asciiColumn_cells (r : HexRow) :
    r.asciiColumn = blanks r.lpad ++ r.bytes.map asciiCell ++ blanks r.rpad := by
  unfold HexRow.asciiColumn
  congr 3
  funext b
  exact ascii_eq_asciiCell b

theorem hexdumpRows_bytes_mem (addr : Nat) (buf : List Nat) (count : Nat)
    (hbuf : count ≤ buf.length) (r : HexRow) (hr : r ∈ Command.hexdumpRows addr buf count)
    (b : Nat) (hb : b ∈ r.bytes) : b ∈ buf := by
  have h := hexdumpRows_bytes count addr buf hbuf
  have h2 : b ∈ ((Command.hexdumpRows addr buf count).map HexRow.bytes).flatten :=
    List.mem_flatten.2 ⟨r.bytes, List.mem_map.2 ⟨r, hr, rfl⟩, hb⟩
  rw [h] at h2
  exact List.mem_of_mem_take h2

theorem hexWord_eq (n : Nat) :
    hexWord n =
      [lowerHexDigits.getD (n / 0x10000000 % 16) '?', lowerHexDigits.getD (n / 0x1000000 % 16) '?',
        lowerHexDigits.getD (n / 0x100000 % 16) '?', lowerHexDigits.getD (n / 0x10000 % 16) '?',
        lowerHexDigits.getD (n / 0x1000 % 16) '?', lowerHexDigits.getD (n / 0x100 % 16) '?',
        lowerHexDigits.getD (n / 0x10 % 16) '?', lowerHexDigits.getD (n % 16) '?'] := by
  have h : n / 1 % 16 = n % 16 := by rw [Nat.div_one]
  rw [← h]
  rfl

/-- The key as `printf("%08x")` prints it is the key as eight lowercase hexadecimal digits. -/
theorem hex08_eq_hexWord (n : Nat) : hex08 n = hexWord n := by
  rw [hexWord_eq]
  unfold hex08
  rw [hexDigit_eq _ (Nat.mod_lt _ (by decide)), hexDigit_eq _ (Nat.mod_lt _ (by decide)),
    hexDigit_eq _ (Nat.mod_lt _ (by decide)), hexDigit_eq _ (Nat.mod_lt _ (by decide)),
    hexDigit_eq _ (Nat.mod_lt _ (by decide)), hexDigit_eq _ (Nat.mod_lt _ (by decide)),
    hexDigit_eq _ (Nat.mod_lt _ (by decide)), hexDigit_eq _ (Nat.mod_lt _ (by decide))]

theorem lowerHexDigit_value : ∀ d, d < 16 →
    digitValue (lowerHexDigits.getD d '?') = some d ∧
    isDigitIn 16 (lowerHexDigits.getD d '?') = true ∧
    lowerHexDigits.getD d '?' ∈ lowerHexDigits := by
  decide

theorem hexWord_length (n : Nat) : (hexWord n).length = 8 := by
  rw [hexWord_eq]
  rfl

theorem hexWord_lower (n : Nat) : ∀ c ∈ hexWord n, c ∈ lowerHexDigits := by
  intro c hc
  rw [hexWord_eq] at hc
  simp only [List.mem_cons, List.mem_nil_iff, or_false] at hc
  rcases hc with h | h | h | h | h | h | h | h <;> rw [h] <;>
    exact (lowerHexDigit_value _ (Nat.mod_lt _ (by decide))).2.2

/-- The eight digits of a 32-bit value, read in base 16, give the value back. -/
theorem hexWord_value (n : Nat) (h : n < 2 ^ 32) : digitsValue 16 (hexWord n) = some n := by
  rw [hexWord_eq]
  have v := fun d (hd : d < 16) => (lowerHexDigit_value d hd).1
  have g := fun d (hd : d < 16) => (lowerHexDigit_value d hd).2.1
  unfold digitsValue
  rw [if_pos]
  · simp only [List.foldl_cons, List.foldl_nil, v _ (Nat.mod_lt _ (by decide : 0 < 16)),
      Option.getD_some]
    congr 1
    omega
  · refine ⟨List.cons_ne_nil _ _, ?_⟩
    simp only [List.all_cons, List.all_nil, g _ (Nat.mod_lt _ (by decide : 0 < 16)),
      Bool.and_self]

/-- The text of a row in the words of the specification: the key as eight hexadecimal digits,
blank cells, byte cells and blank cells in each column. -/
theorem row_text_cells (r : HexRow) (h : ∀ b ∈ r.bytes, b < 256) :
    r.text =
      hexWord r.key ++ " | ".toList ++
        (List.replicate (3 * r.lpad) ' ' ++ (r.bytes.map hexCell).flatten ++
          List.replicate (3 * r.rpad) ' ') ++
        "| ".toList ++
        (List.replicate r.lpad ' ' ++ r.bytes.map asciiCell ++ List.replicate r.rpad ' ') ++
        ['\n'] := by
  unfold HexRow.text
  rw [hex08_eq_hexWord, hexColumn_cells r h, asciiColumn_cells]
  rfl

theorem getD_byte (buf : List Nat) (hbyte : ∀ b ∈ buf, b < 256) (i : Nat) :
    buf.getD i 0 < 256 := by
  by_cases h : i < buf.length
  · rw [List.getD_eq_getElem _ _ h]
    exact hbyte _ (List.getElem_mem h)
  · rw [List.getD_eq_default _ _ (Nat.le_of_not_lt h)]
    decide

/-- C12: for every address and count, `hexdump` prints the header line
`            0  1  2  3  4  5  6  7  8  9  a  b  c  d  e  f` and then exactly
`ceil((address mod 16 + count) / 16)` rows, none when the count is 0, where the header is all
that is printed (the model is a total function: the loop ends); every row has 16 cells in the
hex column (48 characters) and 16 in the ASCII column, left pad, bytes and right pad together;
only the first row can be padded on the left and only the last on the right; the bytes of all
rows in order are exactly `buffer[0..count)`; each is rendered as two lowercase hexadecimal
digits and a space, and as its character if printable, else `.`; the text of a row is its key
as eight lowercase hexadecimal digits, ` | `, the hex column, `| `, the ASCII column and a
newline. -/
theorem hexdump_rows (addr : Nat) (buf : List Nat) (count : Nat)
    (hbuf : count ≤ buf.length) (hbyte : ∀ b ∈ buf, b < 256) :
    Command.hexdump addr buf count =
      "            0  1  2  3  4  5  6  7  8  9  a  b  c  d  e  f\n".toList ++
        ((Command.hexdumpRows addr buf count).map HexRow.text).flatten ∧
    (count = 0 → Command.hexdump addr buf count =
      "            0  1  2  3  4  5  6  7  8  9  a  b  c  d  e  f\n".toList) ∧
    (Command.hexdumpRows addr buf count).length =
      (if count = 0 then 0 else (addr % 16 + count + 15) / 16) ∧
    (∀ r ∈ Command.hexdumpRows addr buf count,
      r.lpad + r.bytes.length + r.rpad = 16 ∧
      r.hexColumn.length = 3 * 16 ∧ r.asciiColumn.length = 16 ∧
      r.hexColumn =
        blanks (3 * r.lpad) ++ (r.bytes.map hexCell).flatten ++ blanks (3 * r.rpad) ∧
      r.asciiColumn = blanks r.lpad ++ r.bytes.map asciiCell ++ blanks r.rpad ∧
      r.text = hex08 r.key ++ " | ".toList ++ r.hexColumn ++ "| ".toList ++ r.asciiColumn
        ++ ['\n'] ∧
      r.text =
        hexWord r.key ++ " | ".toList ++
          (List.replicate (3 * r.lpad) ' ' ++ (r.bytes.map hexCell).flatten ++
            List.replicate (3 * r.rpad) ' ') ++
          "| ".toList ++
          (List.replicate r.lpad ' ' ++ r.bytes.map asciiCell ++ List.replicate r.rpad ' ') ++
          ['\n']) ∧
    (∀ r ∈ (Command.hexdumpRows addr buf count).tail, r.lpad = 0) ∧
    (∀ r ∈ (Command.hexdumpRows addr buf count).dropLast, r.rpad = 0) ∧
    ((Command.hexdumpRows addr buf count).map HexRow.bytes).flatten = buf.take count := by
  refine ⟨rfl, ?_, hexdumpRows_length count addr buf, ?_, hexdumpRows_tail_lpad addr buf count,
    hexdumpRows_dropLast_rpad count addr buf, hexdumpRows_bytes count addr buf hbuf⟩
  · intro h0
    subst h0
    unfold Command.hexdump
    rw [hexdumpRows_zero]
    rfl
  · intro r hr
    have hc := hexdumpRows_cells count addr buf r hr
    have hb : ∀ b ∈ r.bytes, b < 256 :=
      fun b hb => hbyte b (hexdumpRows_bytes_mem addr buf count hbuf r hr b hb)
    refine ⟨hc, ?_, ?_, hexColumn_cells r hb, asciiColumn_cells r, rfl, row_text_cells r hb⟩
    · rw [hexColumn_length, hc]
    · rw [asciiColumn_length, hc]

/-- C12 at a dump of twenty bytes from address 0x1ff8: the header and two rows, holding the
twenty bytes, the first padded on the left and the second on the right. -/
theorem hexdump_rows_witness :
    20 ≤ twentyBytes.length ∧ (∀ b ∈ twentyBytes, b < 256) ∧
    (Command.hexdumpRows 0x1ff8 twentyBytes 20).length = 2 ∧
    (∀ r ∈ (Command.hexdumpRows 0x1ff8 twentyBytes 20).tail, r.lpad = 0) ∧
    (∀ r ∈ (Command.hexdumpRows 0x1ff8 twentyBytes 20).dropLast, r.rpad = 0) ∧
    ((Command.hexdumpRows 0x1ff8 twentyBytes 20).map HexRow.bytes).flatten
      = twentyBytes.take 20 ∧
    Command.hexdump 0x1ff8 twentyBytes 20 =
      ("            0  1  2  3  4  5  6  7  8  9  a  b  c  d  e  f\n" ++
       "00001ff0 |                         3c 3d 3e 3f 40 41 42 43 |         <=>?@ABC\n" ++
       "00002000 | 44 45 46 47 48 49 4a 4b 4c 4d 4e 4f             | DEFGHIJKLMNO    \n").toList := by
  have h := hexdump_rows 0x1ff8 twentyBytes 20 (by decide) (by decide)
  refine ⟨by decide, by decide, h.2.2.1.trans (by decide), h.2.2.2.2.1, h.2.2.2.2.2.1,
    h.2.2.2.2.2.2, ?_⟩
  rw [h.1, hexdumpRows_pos 0x1ff8 twentyBytes 20 (by decide)]
  have hs : Command.hexdumpSize 0x1ff8 20 = 8 := by decide
  rw [hs, hexdumpRows_pos _ _ (20 - 8) (by decide)]
  have hs2 : Command.hexdumpSize ((0x1ff8 + 8) % WORD) (20 - 8) = 12 := by decide
  rw [hs2, hexdumpRows_zero]
  rfl

/-- The row mask clears the low four bits of a 32-bit address. -/
theorem and_row_mask (addr : Nat) (h : addr < 2 ^ 32) :
    addr &&& 0xFFFFFFF0 = addr - addr % 16 := by
  have h1 : addr - addr % 16 = 2 ^ 4 * (addr >>> 4) := by
    rw [Nat.shiftRight_eq_div_pow]
    omega
  have h2 : (0xFFFFFFF0 : Nat) = 2 ^ 4 * (2 ^ 28 - 1) := by decide
  rw [h1, h2]
  apply Nat.eq_of_testBit_eq
  intro i
  rw [Nat.testBit_and, Nat.testBit_mul_pow_two, Nat.testBit_mul_pow_two,
    Nat.testBit_two_pow_sub_one, Nat.testBit_shiftRight]
  by_cases h4 : i ≥ 4
  · by_cases h32 : i - 4 < 28
    · have e : 4 + (i - 4) = i := by omega
      simp [h4, h32, e]
    · have hlt : addr < 2 ^ i :=
        Nat.lt_of_lt_of_le h (Nat.pow_le_pow_right (by decide) (by omega))
      have e : 4 + (i - 4) = i := by omega
      simp [h4, h32, e, Nat.testBit_lt_two_pow hlt]
  · simp [h4]

/-- C11: for every 32-bit address and every count of at least 1, the buffer holding bytes,
the first row `hexdump` prints after the header has the row key `address & ~0xF` (the address
less its remainder mod 16), printed as its eight lowercase hexadecimal digits, and exactly
`address mod 16` blank cells in front of the cell of the first byte in both columns: three
spaces each in the hex column, one space each in the ASCII column; the byte cells of the row
are those of the first `min(count, 16 - address mod 16)` bytes, and blank cells fill the row up
to 16. -/
theorem hexdump_first_row (addr : Nat) (buf : List Nat) (count : Nat)
    (haddr : addr < 2 ^ 32) (hcount : 1 ≤ count) (hbyte : ∀ b ∈ buf, b < 256) :
    ∃ row rest more,
      Command.hexdumpRows addr buf count = row :: rest ∧
      Command.hexdump addr buf count =
        "            0  1  2  3  4  5  6  7  8  9  a  b  c  d  e  f\n".toList ++ row.text ++
          (rest.map HexRow.text).flatten ∧
      row.key = addr &&& 0xFFFFFFF0 ∧ row.key = addr - addr % 16 ∧
      row.lpad = addr % 16 ∧ row.bytes = buf.getD 0 0 :: more ∧
      row.bytes = (List.range (min count (16 - addr % 16))).map (fun i => buf.getD i 0) ∧
      row.rpad = 16 - addr % 16 - min count (16 - addr % 16) ∧
      row.text =
        hexWord (addr - addr % 16) ++ " | ".toList ++
          (List.replicate (3 * (addr % 16)) ' ' ++
            (hexCell (buf.getD 0 0) ++ (more.map hexCell).flatten) ++
            List.replicate (3 * row.rpad) ' ') ++
          "| ".toList ++
          (List.replicate (addr % 16) ' ' ++ (asciiCell (buf.getD 0 0) :: more.map asciiCell) ++
            List.replicate row.rpad ' ') ++
          ['\n'] ∧
      (hexWord (addr - addr % 16)).length = 8 ∧
      (∀ c ∈ hexWord (addr - addr % 16), c ∈ lowerHexDigits) ∧
      digitsValue 16 (hexWord (addr - addr % 16)) = some (addr - addr % 16) ∧
      row.hexColumn = blanks (3 * (addr % 16)) ++
        ((hex02 (buf.getD 0 0) ++ [' ']) ++ (more.map (fun b => hex02 b ++ [' '])).flatten)
        ++ blanks (3 * row.rpad) ∧
      row.asciiColumn = blanks (addr % 16) ++
        ((if isprint (buf.getD 0 0) = true then Char.ofNat (buf.getD 0 0) else '.') ::
          more.map (fun b => if isprint b = true then Char.ofNat b else '.'))
        ++ blanks row.rpad := by
  have hpos : 0 < count := hcount
  obtain ⟨h1, _, _, _⟩ := hexdumpSize_spec addr count hpos
  have hsize : Command.hexdumpSize addr count = min count (16 - addr % 16) := by
    unfold Command.hexdumpSize
    omega
  obtain ⟨n, hn⟩ : ∃ n, Command.hexdumpSize addr count = n + 1 :=
    ⟨Command.hexdumpSize addr count - 1, by omega⟩
  have hbytes : (List.range (Command.hexdumpSize addr count)).map
      (fun offset => buf.getD offset 0) =
      buf.getD 0 0 :: (List.range n).map (fun offset => buf.getD (offset + 1) 0) := by
    rw [hn, List.range_succ_eq_map, List.map_cons, List.map_map]
    rfl
  have hkey := and_row_mask addr haddr
  have hrow : ∀ b ∈ (List.range (Command.hexdumpSize addr count)).map
      (fun offset => buf.getD offset 0), b < 256 := by
    intro b hb
    obtain ⟨i, _, hi⟩ := List.mem_map.1 hb
    rw [← hi]
    exact getD_byte buf hbyte i
  refine ⟨_, _, (List.range n).map (fun offset => buf.getD (offset + 1) 0),
    hexdumpRows_pos addr buf count hpos, ?_, rfl, hkey, rfl, hbytes, ?_, ?_, ?_,
    hexWord_length _, hexWord_lower _, hexWord_value _ (by omega), ?_, ?_⟩
  · unfold Command.hexdump Command.hexdumpHeader
    rw [hexdumpRows_pos addr buf count hpos, List.map_cons, List.flatten_cons,
      List.append_assoc]
  · dsimp only
    rw [hsize]
  · dsimp only
    omega
  · rw [row_text_cells _ hrow]
    dsimp only
    rw [hbytes, hkey, List.map_cons, List.map_cons, List.flatten_cons]
  · unfold HexRow.hexColumn
    dsimp only
    rw [hbytes, List.map_cons, List.flatten_cons]
  · unfold HexRow.asciiColumn
    dsimp only
    rw [hbytes, List.map_cons]

/-- C11 at `hexdump(0x1003, "Hello", 5)`: one row, keyed `00001000`, with three blank cells
in front of the five bytes in each column. -/
theorem hexdump_first_row_witness :
    (0x1003 < 2 ^ 32 ∧ 1 ≤ 5 ∧ ∀ b ∈ helloBytes, b < 256) ∧
    (∃ row rest more,
      Command.hexdumpRows 0x1003 helloBytes 5 = row :: rest ∧
      Command.hexdump 0x1003 helloBytes 5 =
        "            0  1  2  3  4  5  6  7  8  9  a  b  c  d  e  f\n".toList ++ row.text ++
          (rest.map HexRow.text).flatten ∧
      row.key = 0x1003 &&& 0xFFFFFFF0 ∧ row.key = 0x1003 - 0x1003 % 16 ∧
      row.lpad = 0x1003 % 16 ∧ row.bytes = helloBytes.getD 0 0 :: more ∧
      row.bytes =
        (List.range (min 5 (16 - 0x1003 % 16))).map (fun i => helloBytes.getD i 0) ∧
      row.rpad = 16 - 0x1003 % 16 - min 5 (16 - 0x1003 % 16) ∧
      row.text =
        hexWord (0x1003 - 0x1003 % 16) ++ " | ".toList ++
          (List.replicate (3 * (0x1003 % 16)) ' ' ++
            (hexCell (helloBytes.getD 0 0) ++ (more.map hexCell).flatten) ++
            List.replicate (3 * row.rpad) ' ') ++
          "| ".toList ++
          (List.replicate (0x1003 % 16) ' ' ++
            (asciiCell (helloBytes.getD 0 0) :: more.map asciiCell) ++
            List.replicate row.rpad ' ') ++
          ['\n'] ∧
      (hexWord (0x1003 - 0x1003 % 16)).length = 8 ∧
      (∀ c ∈ hexWord (0x1003 - 0x1003 % 16), c ∈ lowerHexDigits) ∧
      digitsValue 16 (hexWord (0x1003 - 0x1003 % 16)) = some (0x1003 - 0x1003 % 16) ∧
      row.hexColumn = blanks (3 * (0x1003 % 16)) ++
        ((hex02 (helloBytes.getD 0 0) ++ [' ']) ++
          (more.map (fun b => hex02 b ++ [' '])).flatten)
        ++ blanks (3 * row.rpad) ∧
      row.asciiColumn = blanks (0x1003 % 16) ++
        ((if isprint (helloBytes.getD 0 0) = true then Char.ofNat (helloBytes.getD 0 0)
            else '.') ::
          more.map (fun b => if isprint b = true then Char.ofNat b else '.'))
        ++ blanks row.rpad) ∧
    hexWord (0x1003 - 0x1003 % 16) = "00001000".toList ∧
    Command.hexdump 0x1003 helloBytes 5 =
      ("            0  1  2  3  4  5  6  7  8  9  a  b  c  d  e  f\n" ++
       "00001000 |          48 65 6c 6c 6f                         |    Hello        \n").toList := by
  refine ⟨by decide,
    hexdump_first_row 0x1003 helloBytes 5 (by decide) (by decide) (by decide), by decide, ?_⟩
  unfold Command.hexdump
  rw [hexdumpRows_pos 0x1003 helloBytes 5 (by decide)]
  have hs : Command.hexdumpSize 0x1003 5 = 5 := by decide
  rw [hs, Nat.sub_self, hexdumpRows_zero]
  decide

/-! ## Pin operations: line tokens and operation keywords -/

theorem pio_invoke_eq (env : Env) (argv : List (List Char)) (s : State) (i base : Nat)
    (h : CommandPio.lineResolved env argv s i base) :
    CommandPio.invoke env argv s =
      Result.after Call.chipId (CommandPio.operation s base (1 <<< i) (arg argv 2)) := by
  obtain ⟨hargc, hc, hlen, hp, hline, hi, hbase, hne⟩ := h
  unfold CommandPio.invoke
  have h3 : ¬ ((arg argv 1).length < 3 ∨ tolower ((arg argv 1).getD 0 ' ') ≠ 'p') := by
    rintro (h | h)
    · omega
    · exact h hp
  simp only [hargc, argNum_passes, connected_eq, hc, Bool.not_true, Bool.false_eq_true,
    if_false, if_neg h3, hline, hbase, if_neg hne, if_neg (Nat.not_le.2 hi), ge_iff_le]

theorem char_of_toNat (c : Char) (n : Nat) (h : c.toNat = n) : c = Char.ofNat n := by
  rw [← h, Char.ofNat_toNat]

theorem pio_base_ne_zero (chipId : Nat) (port : Char) (h : CommandPio.base chipId port ≠ 0) :
    port = 'a' ∨ port = 'b' ∨ port = 'c' := by
  by_cases ha : port.toNat = 97
  · exact Or.inl (char_of_toNat port 97 ha)
  · by_cases hb : port.toNat = 98
    · exact Or.inr (Or.inl (char_of_toNat port 98 hb))
    · by_cases hc : port.toNat = 99
      · exact Or.inr (Or.inr (char_of_toNat port 99 hc))
      · exfalso
        apply h
        unfold CommandPio.base
        simp [ha, hb, hc]

/-- C16, as stated, fails: `pio pa0x1f status` and `pio pa+5 status` on the sample session
each read a register, though `0x1f` is hexadecimal and `+5` is signed; the index goes through
`argUint32`, which takes every literal `strtoll` takes. -/
theorem pio_takes_hex_and_signed_index :
    isDecimalLine "pa0x1f".toList = false ∧
    (Cmd.invoke .pio Env.sample (tokens ["pio", "pa0x1f", "status"]) State.sample).calls
      = [Call.chipId, Call.readWord (0x400e0e00 + 0x3c), Call.print "high\n".toList] ∧
    isDecimalLine "pa+5".toList = false ∧
    (Cmd.invoke .pio Env.sample (tokens ["pio", "pa+5", "status"]) State.sample).calls
      = [Call.chipId, Call.readWord (0x400e0e00 + 0x3c), Call.print "low\n".toList] := by
  decide

/-- C16, amended: for every line token given to `pio`, a register access (`readWord` or
`writeWord`) is performed only if the token has at least three characters, the letter `p`,
then a port letter `a`, `b` or `c` (letters in either case), then what `argUint32` accepts
with a value in [0, 31]: optional white space and an integer literal with optional sign,
decimal, `0x` hexadecimal or `0` octal; every other token fails with no register read or
write. -/
theorem pio_access_needs_line (env : Env) (argv : List (List Char)) (s : State)
    (h : ∃ c ∈ (Cmd.invoke .pio env argv s).calls, c.isRegisterAccess = true) :
    isLiteralLine (arg argv 1) := by
  obtain ⟨c, hc, hacc⟩ := h
  simp only [Cmd.invoke] at hc
  unfold CommandPio.invoke at hc
  by_cases h1 : (!Command.argNum argv.length 3) = true
  · rw [if_pos h1] at hc
    simp [Result.ret] at hc
  rw [if_neg h1] at hc
  by_cases h2 : (!Command.connected s) = true
  · rw [if_pos h2] at hc
    simp [Result.ret] at hc
  rw [if_neg h2] at hc
  by_cases h3 : (arg argv 1).length < 3 ∨ tolower ((arg argv 1).getD 0 ' ') ≠ 'p'
  · rw [if_pos h3] at hc
    simp [Result.ret] at hc
  rw [if_neg h3] at hc
  have hlen : 3 ≤ (arg argv 1).length := by
    by_contra hh
    exact h3 (Or.inl (by omega))
  have hp : tolower ((arg argv 1).getD 0 ' ') = 'p' := by
    by_contra hh
    exact h3 (Or.inr hh)
  cases h4 : Command.argUint32 env.einval ((arg argv 1).drop 2) with
  | error e =>
    rw [h4] at hc
    simp [Result.ret] at hc
  | ok line =>
    rw [h4] at hc
    dsimp only at hc
    by_cases h5 : line ≥ 32
    · rw [if_pos h5] at hc
      simp [Result.ret] at hc
    rw [if_neg h5] at hc
    by_cases h6 : CommandPio.base env.chipId (tolower ((arg argv 1).getD 1 ' ')) = 0
    · rw [if_pos h6] at hc
      simp only [Result.call, List.mem_singleton] at hc
      rw [hc] at hacc
      cases hacc
    · refine ⟨hlen, hp, pio_base_ne_zero _ _ h6, line, ?_, by omega⟩
      rcases (argUint32_ok_iff _ _ _).1 h4 with h7 | ⟨h7, _, _⟩
      · exact h7.1
      · have hl := congrArg List.length h7
        rw [List.length_drop, List.length_nil] at hl
        omega

/-- C16, amended, at `pio pa5 status` on the sample session. -/
theorem pio_access_needs_line_witness :
    (∃ c ∈ (Cmd.invoke .pio Env.sample (tokens ["pio", "pa5", "status"]) State.sample).calls,
      c.isRegisterAccess = true) ∧
    isLiteralLine (arg (tokens ["pio", "pa5", "status"]) 1) :=
  ⟨by decide,
    pio_access_needs_line Env.sample (tokens ["pio", "pa5", "status"]) State.sample
      (by decide)⟩

theorem strncasecmp_length (op kw : List Char) :
    strncasecmp op kw op.length = beginsNoCase op kw := by
  unfold strncasecmp beginsNoCase
  rw [List.take_length, Bool.eq_iff_iff, decide_eq_true_eq, List.isPrefixOf_iff_prefix,
    List.prefix_iff_eq_take, List.length_map, List.map_take]

/-- The first letter of each keyword. -/
theorem begins_cons (c : Char) (r : List Char) (k : PioOp)
    (h : beginsNoCase (c :: r) k.keyword = true) :
    tolower c = k.keyword.headD ' ' := by
  cases k <;>
    simp only [beginsNoCase, PioOp.keyword, String.toList, List.map_cons, List.isPrefixOf,
      Bool.and_eq_true, beq_iff_eq] at h <;>
    rw [h.1] <;> rfl

theorem keyword_initial_injective (k k2 : PioOp)
    (h : k.keyword.headD ' ' = k2.keyword.headD ' ') : k = k2 := by
  cases k <;> cases k2 <;> first | rfl | (exact absurd h (by decide))

theorem begins_unique (op : List Char) (hop : op ≠ []) (k k2 : PioOp)
    (h : beginsNoCase op k.keyword = true) (h2 : beginsNoCase op k2.keyword = true) :
    k2 = k := by
  cases op with
  | nil => exact absurd rfl hop
  | cons c r =>
    exact keyword_initial_injective k2 k
      ((begins_cons c r k2 h2).symm.trans (begins_cons c r k h))

/-- The operation part looks at its token only through the five prefix tests. -/
theorem operation_congr (s : State) (addr line : Nat) (op op2 : List Char)
    (h : ∀ k : PioOp, beginsNoCase op k.keyword = beginsNoCase op2 k.keyword) :
    CommandPio.operation s addr line op = CommandPio.operation s addr line op2 := by
  unfold CommandPio.operation
  simp only [strncasecmp_length]
  have hd := h .detail
  have hh := h .high
  have hl := h .low
  have hs := h .status
  have hi := h .input
  simp only [PioOp.keyword] at hd hh hl hs hi
  rw [hd, hh, hl, hs, hi]

theorem keyword_begins (k k2 : PioOp) :
    beginsNoCase k.keyword k2.keyword = decide (k = k2) := by
  cases k <;> cases k2 <;> decide

theorem operation_head (s : State) (addr line : Nat) (k : PioOp) :
    (CommandPio.operation s addr line k.keyword).calls.head? =
      some (k.firstAccess addr line) := by
  unfold CommandPio.operation
  simp only [strncasecmp_length]
  cases k
  · rw [if_pos (by decide)]
    split
    · split <;> rfl
    · rfl
  · rw [if_neg (by decide), if_pos (by decide)]
    rfl
  · rw [if_neg (by decide), if_neg (by decide), if_pos (by decide)]
    rfl
  · rw [if_neg (by decide), if_neg (by decide), if_neg (by decide), if_pos (by decide)]
    rfl
  · rw [if_neg (by decide), if_neg (by decide), if_neg (by decide), if_neg (by decide),
      if_pos (by decide)]
    rfl

theorem firstAccess_injective (addr line : Nat) (k k2 : PioOp)
    (h : k.firstAccess addr line = k2.firstAccess addr line) : k = k2 := by
  cases k <;> cases k2 <;> first
    | rfl
    | (simp [PioOp.firstAccess, PIO_PSR, PIO_SODR, PIO_CODR, PIO_PDSR, PIO_ODR] at h)

theorem operation_invalid (s : State) (addr line : Nat) (op : List Char)
    (h : ∀ k : PioOp, beginsNoCase op k.keyword = false) :
    CommandPio.operation s addr line op =
      Result.call s [Call.print "Invalid PIO operation\n".toList] := by
  unfold CommandPio.operation
  simp only [strncasecmp_length]
  have hd := h .detail
  have hh := h .high
  have hl := h .low
  have hs := h .status
  have hi := h .input
  simp only [PioOp.keyword] at hd hh hl hs hi
  rw [hd, hh, hl, hs, hi]
  rfl

theorem operation_of_begins (s : State) (addr line : Nat) (op : List Char) (hop : op ≠ [])
    (k : PioOp) (h : beginsNoCase op k.keyword = true) :
    CommandPio.operation s addr line op = CommandPio.operation s addr line k.keyword := by
  apply operation_congr
  intro k2
  rw [keyword_begins]
  by_cases hk : k = k2
  · subst hk
    rw [h]
    simp
  · rw [decide_eq_false hk]
    cases h2 : beginsNoCase op k2.keyword with
    | false => rfl
    | true => exact absurd (begins_unique op hop k k2 h h2).symm hk

/-- C17, as stated, fails: the empty operation token begins every keyword, yet
`pio pa5 ""` is not rejected; it runs `detail`, the first test of the chain, reading two
registers on the session whose memory is all 0. -/
theorem pio_empty_operation_runs_detail :
    beginsNoCase [] PioOp.detail.keyword = true ∧ beginsNoCase [] PioOp.high.keyword = true ∧
    (Cmd.invoke .pio Env.sample (tokens ["pio", "pa5", ""]) State.cleared).calls
      = [Call.chipId, Call.readWord (0x400e0e00 + 0x08),
          Call.print "PIO Status    : periph\n".toList,
          Call.readWord (0x400e0e00 + 0x70), Call.print "Periph Select : B\n".toList] := by
  decide

/-- C17, amended: for every nonempty operation token given to `pio` with a valid line, the
operation executed (told by its first register access) is keyword `k` of detail, high, low,
status, input iff the token begins `k`, case ignored, and begins no other keyword; such a
token acts exactly as the keyword in full; a token that begins no keyword is rejected as an
invalid operation with no register read or write. -/
theorem pio_operation_by_keyword (s : State) (addr line : Nat) (op : List Char) (k : PioOp)
    (hop : op ≠ []) :
    ((CommandPio.operation s addr line op).calls.head? = some (k.firstAccess addr line) ↔
      (beginsNoCase op k.keyword = true ∧
        ∀ k2 : PioOp, k2 ≠ k → beginsNoCase op k2.keyword = false)) ∧
    (beginsNoCase op k.keyword = true →
      CommandPio.operation s addr line op = CommandPio.operation s addr line k.keyword) ∧
    ((∀ k2 : PioOp, beginsNoCase op k2.keyword = false) →
      CommandPio.operation s addr line op =
        Result.call s [Call.print "Invalid PIO operation\n".toList]) := by
  have huniq : beginsNoCase op k.keyword = true →
      ∀ k2 : PioOp, k2 ≠ k → beginsNoCase op k2.keyword = false := by
    intro h k2 hk
    cases h2 : beginsNoCase op k2.keyword with
    | false => rfl
    | true => exact absurd (begins_unique op hop k k2 h h2) hk
  refine ⟨⟨?_, ?_⟩, operation_of_begins s addr line op hop k, operation_invalid s addr line op⟩
  · intro hhead
    by_cases hex : ∃ k0 : PioOp, beginsNoCase op k0.keyword = true
    · obtain ⟨k0, hk0⟩ := hex
      rw [operation_of_begins s addr line op hop k0 hk0, operation_head] at hhead
      have hk := firstAccess_injective addr line k0 k (Option.some.inj hhead)
      subst hk
      exact ⟨hk0, huniq hk0⟩
    · have hnone : ∀ k2 : PioOp, beginsNoCase op k2.keyword = false := by
        intro k2
        cases h2 : beginsNoCase op k2.keyword with
        | false => rfl
        | true => exact absurd ⟨k2, h2⟩ hex
      rw [operation_invalid s addr line op hnone] at hhead
      cases k <;> simp [Result.call, PioOp.firstAccess] at hhead
  · rintro ⟨h, _⟩
    rw [operation_of_begins s addr line op hop k h, operation_head]

/-- C17, amended, at the token `H` on the sample session: it runs `high`. -/
theorem pio_operation_by_keyword_witness :
    "H".toList ≠ [] ∧
    (beginsNoCase "H".toList PioOp.high.keyword = true ∧
      ∀ k2 : PioOp, k2 ≠ PioOp.high → beginsNoCase "H".toList k2.keyword = false) ∧
    (CommandPio.operation State.sample 0x400e0e00 32 "H".toList).calls.head? =
      some (PioOp.high.firstAccess 0x400e0e00 32) ∧
    CommandPio.operation State.sample 0x400e0e00 32 "H".toList =
      CommandPio.operation State.sample 0x400e0e00 32 PioOp.high.keyword :=
  ⟨by decide,
    ⟨by decide, fun k2 hk => by cases k2 <;> first | exact absurd rfl hk | decide⟩,
    (pio_operation_by_keyword State.sample 0x400e0e00 32 "H".toList .high (by decide)).1.2
      ⟨by decide, fun k2 hk => by cases k2 <;> first | exact absurd rfl hk | decide⟩,
    (pio_operation_by_keyword State.sample 0x400e0e00 32 "H".toList .high (by decide)).2.1
      (by decide)⟩

/-! ## Pin operations: register accesses -/

/-- C18: for every valid line (bit index `i` below 32, resolved base `B`), `high` writes
`B+0x30` (set-output), then `B+0x10` (output-enable), then `B+0x00` (enable); `low` writes
`B+0x34` (clear-output), then `B+0x10`, then `B+0x00`; `input` writes `B+0x14`
(output-disable), then `B+0x00`; all with the single-bit mask `1 << i`; and `status` performs
exactly one read, of `B+0x3c` (pin-data-status), and prints `high` iff bit `i` of the value
is set. -/
theorem pio_write_sequences (env : Env) (argv : List (List Char)) (s : State) (i B : Nat)
    (h : CommandPio.lineResolved env argv s i B) :
    (arg argv 2 = "high".toList →
      (Cmd.invoke .pio env argv s).calls = [Call.chipId, Call.writeWord (B + 0x30) (2 ^ i),
        Call.writeWord (B + 0x10) (2 ^ i), Call.writeWord (B + 0x00) (2 ^ i)]) ∧
    (arg argv 2 = "low".toList →
      (Cmd.invoke .pio env argv s).calls = [Call.chipId, Call.writeWord (B + 0x34) (2 ^ i),
        Call.writeWord (B + 0x10) (2 ^ i), Call.writeWord (B + 0x00) (2 ^ i)]) ∧
    (arg argv 2 = "input".toList →
      (Cmd.invoke .pio env argv s).calls = [Call.chipId, Call.writeWord (B + 0x14) (2 ^ i),
        Call.writeWord (B + 0x00) (2 ^ i)]) ∧
    (arg argv 2 = "status".toList →
      (Cmd.invoke .pio env argv s).calls = [Call.chipId, Call.readWord (B + 0x3c),
        Call.print (if Samba.readWord s.mem (B + 0x3c) / 2 ^ i % 2 = 1
          then "high\n".toList else "low\n".toList)]) := by
  simp only [Cmd.invoke]
  rw [pio_invoke_eq env argv s i B h]
  refine ⟨?_, ?_, ?_, ?_⟩
  · intro hop
    rw [hop, Nat.one_shiftLeft]
    unfold CommandPio.operation
    rw [if_neg (by decide), if_pos (by decide)]
    rfl
  · intro hop
    rw [hop, Nat.one_shiftLeft]
    unfold CommandPio.operation
    rw [if_neg (by decide), if_neg (by decide), if_pos (by decide)]
    rfl
  · intro hop
    rw [hop, Nat.one_shiftLeft]
    unfold CommandPio.operation
    rw [if_neg (by decide), if_neg (by decide), if_neg (by decide), if_neg (by decide),
      if_pos (by decide)]
    rfl
  · intro hop
    rw [hop]
    unfold CommandPio.operation
    rw [if_neg (by decide), if_neg (by decide), if_neg (by decide), if_pos (by decide)]
    have hbit := and_one_shiftLeft_ne_zero (Samba.readWord s.mem (B + PIO_PDSR)) i
    by_cases hset : Samba.readWord s.mem (B + PIO_PDSR) / 2 ^ i % 2 = 1
    · have hset2 : Samba.readWord s.mem (B + 0x3c) / 2 ^ i % 2 = 1 := hset
      rw [if_pos (hbit.2 hset), if_pos hset2]
      rfl
    · have hset2 : ¬ Samba.readWord s.mem (B + 0x3c) / 2 ^ i % 2 = 1 := hset
      rw [if_neg (fun hh => hset (hbit.1 hh)), if_neg hset2]
      rfl

theorem sample_line_resolved (op : String) (s : State) (hs : s.connected = true) :
    CommandPio.lineResolved Env.sample (tokens ["pio", "pa5", op]) s 5 0x400e0e00 := by
  unfold CommandPio.lineResolved
  have h1 : arg (tokens ["pio", "pa5", op]) 1 = "pa5".toList := rfl
  rw [h1]
  exact ⟨rfl, hs, by decide, by decide, by decide, by decide, by decide, by decide⟩

/-- C18 at `pio pa5 high` and `pio pa5 status` on the sample session: base 0x400e0e00,
mask 32. -/
theorem pio_write_sequences_witness :
    CommandPio.lineResolved Env.sample (tokens ["pio", "pa5", "high"]) State.sample
      5 0x400e0e00 ∧
    (Cmd.invoke .pio Env.sample (tokens ["pio", "pa5", "high"]) State.sample).calls =
      [Call.chipId, Call.writeWord (0x400e0e00 + 0x30) (2 ^ 5),
        Call.writeWord (0x400e0e00 + 0x10) (2 ^ 5), Call.writeWord (0x400e0e00 + 0x00) (2 ^ 5)] ∧
    (Cmd.invoke .pio Env.sample (tokens ["pio", "pa5", "status"]) State.sample).calls =
      [Call.chipId, Call.readWord (0x400e0e00 + 0x3c),
        Call.print (if Samba.readWord State.sample.mem (0x400e0e00 + 0x3c) / 2 ^ 5 % 2 = 1
          then "high\n".toList else "low\n".toList)] :=
  ⟨sample_line_resolved "high" State.sample rfl,
    (pio_write_sequences Env.sample (tokens ["pio", "pa5", "high"]) State.sample 5 0x400e0e00
      (sample_line_resolved "high" State.sample rfl)).1 (by decide),
    (pio_write_sequences Env.sample (tokens ["pio", "pa5", "status"]) State.sample 5 0x400e0e00
      (sample_line_resolved "status" State.sample rfl)).2.2.2 (by decide)⟩

/-- C19, as stated, fails: on a session whose memory is all 0 the line is
peripheral-controlled, and `pio pa5 detail` reads status and peripheral-select only; it does
not read pin-data-status (`B+0x3c`), which `CommandPio::invoke` reads inside the GPIO branch. -/
theorem pio_detail_peripheral_skips_pin_data :
    (Cmd.invoke .pio Env.sample (tokens ["pio", "pa5", "detail"]) State.cleared).calls
      = [Call.chipId, Call.readWord (0x400e0e00 + 0x08),
          Call.print "PIO Status    : periph\n".toList,
          Call.readWord (0x400e0e00 + 0x70), Call.print "Periph Select : B\n".toList] ∧
    Call.readWord (0x400e0e00 + 0x3c) ∉
      (Cmd.invoke .pio Env.sample (tokens ["pio", "pa5", "detail"]) State.cleared).calls := by
  decide

/-- C19, amended: for every valid line and every device register contents, `detail` first
reads status (`B+0x08`); if the bit of the line is set there (GPIO-controlled) it reads
output-status (`B+0x18`), then, if the bit is set there, output-data-status (`B+0x38`), and
then pin-data-status (`B+0x3c`), whether the line is an output or an input; if the line is
peripheral-controlled it reads peripheral-select (`B+0x70`) and nothing else; it performs no
register write and leaves the state as it was. -/
theorem pio_detail_reads (env : Env) (argv : List (List Char)) (s : State) (i B : Nat)
    (h : CommandPio.lineResolved env argv s i B) (hop : arg argv 2 = "detail".toList) :
    (Cmd.invoke .pio env argv s).calls.filter Call.isRegisterAccess =
      Call.readWord (B + 0x08) ::
        (if Samba.readWord s.mem (B + 0x08) / 2 ^ i % 2 = 1 then
          Call.readWord (B + 0x18) ::
            (if Samba.readWord s.mem (B + 0x18) / 2 ^ i % 2 = 1
              then [Call.readWord (B + 0x38), Call.readWord (B + 0x3c)]
              else [Call.readWord (B + 0x3c)])
        else [Call.readWord (B + 0x70)]) ∧
    (∀ c ∈ (Cmd.invoke .pio env argv s).calls, ∀ a v, c ≠ Call.writeWord a v) ∧
    (Cmd.invoke .pio env argv s).state = s := by
  simp only [Cmd.invoke]
  rw [pio_invoke_eq env argv s i B h, hop]
  unfold CommandPio.operation
  rw [if_pos (by decide)]
  have hpsr := and_one_shiftLeft_ne_zero (Samba.readWord s.mem (B + PIO_PSR)) i
  have hosr := and_one_shiftLeft_ne_zero (Samba.readWord s.mem (B + PIO_OSR)) i
  by_cases h1 : Samba.readWord s.mem (B + PIO_PSR) / 2 ^ i % 2 = 1
  · have h1b : Samba.readWord s.mem (B + 0x08) / 2 ^ i % 2 = 1 := h1
    rw [if_pos (hpsr.2 h1), if_pos h1b]
    by_cases h2 : Samba.readWord s.mem (B + PIO_OSR) / 2 ^ i % 2 = 1
    · have h2b : Samba.readWord s.mem (B + 0x18) / 2 ^ i % 2 = 1 := h2
      rw [if_pos (hosr.2 h2), if_pos h2b]
      refine ⟨rfl, ?_, rfl⟩
      intro c hc a v hcw
      subst hcw
      simp [Result.after, Result.call] at hc
    · have h2b : ¬ Samba.readWord s.mem (B + 0x18) / 2 ^ i % 2 = 1 := h2
      rw [if_neg (fun hh => h2 (hosr.1 hh)), if_neg h2b]
      refine ⟨rfl, ?_, rfl⟩
      intro c hc a v hcw
      subst hcw
      simp [Result.after, Result.call] at hc
  · have h1b : ¬ Samba.readWord s.mem (B + 0x08) / 2 ^ i % 2 = 1 := h1
    rw [if_neg (fun hh => h1 (hpsr.1 hh)), if_neg h1b]
    refine ⟨rfl, ?_, rfl⟩
    intro c hc a v hcw
    subst hcw
    simp [Result.after, Result.call] at hc

/-- C19, amended, at `pio pa5 detail` on the session whose memory is all 255 (the line is a
GPIO output): four reads, the last of pin-data-status. -/
theorem pio_detail_reads_witness :
    CommandPio.lineResolved Env.sample (tokens ["pio", "pa5", "detail"]) State.erased
      5 0x400e0e00 ∧
    arg (tokens ["pio", "pa5", "detail"]) 2 = "detail".toList ∧
    (Cmd.invoke .pio Env.sample (tokens ["pio", "pa5", "detail"])
      State.erased).calls.filter Call.isRegisterAccess =
        [Call.readWord (0x400e0e00 + 0x08), Call.readWord (0x400e0e00 + 0x18),
          Call.readWord (0x400e0e00 + 0x38), Call.readWord (0x400e0e00 + 0x3c)] ∧
    (Cmd.invoke .pio Env.sample (tokens ["pio", "pa5", "detail"]) State.erased).state
      = State.erased :=
  ⟨sample_line_resolved "detail" State.erased rfl, by decide,
    (pio_detail_reads Env.sample (tokens ["pio", "pa5", "detail"]) State.erased 5 0x400e0e00
      (sample_line_resolved "detail" State.erased rfl) (by decide)).1.trans (by decide),
    (pio_detail_reads Env.sample (tokens ["pio", "pa5", "detail"]) State.erased 5 0x400e0e00
      (sample_line_resolved "detail" State.erased rfl) (by decide)).2.2⟩

/-! ## The chunks of a device-to-file transfer -/

/-- With no device or file error, the loop of `mrf` ends without error having read and
written `count` bytes in chunks of `min(remaining, 1024)` bytes. -/
theorem mrf_loop_chunks (env : Env) (s : State) (addr : Nat)
    (hread : ∀ k, env.readThrows k = false) (hfull : ∀ k n, n ≤ env.fwriteRet k n) :
    ∀ count k,
      (CommandMrf.loop env s addr count k).error = none ∧
      (CommandMrf.loop env s addr count k).file.length = count ∧
      (CommandMrf.loop env s addr count k).calls.filterMap Call.readLength =
        (List.range ((count + 1023) / 1024)).map (fun j => min (count - 1024 * j) 1024) ∧
      (CommandMrf.loop env s addr count k).calls.filterMap Call.writeLength =
        (CommandMrf.loop env s addr count k).calls.filterMap Call.readLength ∧
      ((CommandMrf.loop env s addr count k).calls.filterMap Call.readLength).sum = count ∧
      (∀ n ∈ (CommandMrf.loop env s addr count k).calls.filterMap Call.readLength,
        1 ≤ n ∧ n ≤ 1024) := by
  intro count
  induction count using Nat.strong_induction_on with
  | _ count ih =>
    intro k
    by_cases h0 : count = 0
    · subst h0
      rw [mrf_loop_zero]
      simp [Result.ret]
    · have hpos : 0 < count := Nat.pos_of_ne_zero h0
      rw [mrf_loop_step env s addr count k hpos (hread k) (hfull k _)]
      obtain ⟨e1, e2, e3, e4, e5, e6⟩ := ih (count - min count 1024) (by omega) (k + 1)
      simp only [List.filterMap_cons, Call.readLength, Call.writeLength, List.length_append,
        samba_read_length, List.sum_cons, List.mem_cons]
      refine ⟨e1, by rw [e2]; omega, ?_, by rw [e4], by rw [e5]; omega, ?_⟩
      · rw [e3]
        by_cases hbig : count ≤ 1024
        · have m1 : min count 1024 = count := by omega
          have m2 : (count + 1023) / 1024 = 1 := by omega
          have z : (0 + 1023) / 1024 = 0 := by omega
          have hh : min (count - 1024 * 0) 1024 = count := by omega
          have r1 : List.range 1 = [0] := rfl
          rw [m1, Nat.sub_self, m2, z, r1]
          simp only [List.range_zero, List.map_nil, List.map_cons]
          rw [hh]
        · have m1 : min count 1024 = 1024 := by omega
          have m2 : (count + 1023) / 1024 = (count - 1024 + 1023) / 1024 + 1 := by omega
          have hh : min (count - 1024 * 0) 1024 = 1024 := by omega
          rw [m1, m2, List.range_succ_eq_map, List.map_cons, List.map_map, hh]
          refine congrArg (List.cons 1024) ?_
          apply List.map_congr_left
          intro j _
          have e : count - 1024 - 1024 * j = count - 1024 * Nat.succ j := by omega
          simp only [Function.comp_apply]
          rw [e]
      · intro n hn
        rcases hn with hn | hn
        · omega
        · exact e6 n hn

/-- C21: for every count `N` that `mrf` accepts, assuming no device or file error, the
command ends without error after exactly `ceil(N / 1024)` device reads, the `j`-th of length
`min(N - 1024 j, 1024)`, the remaining count capped by the buffer size: each between 1 and
1024 bytes, the lengths summing to `N`; each file write has the length of its read and the
file receives `N` bytes; for `N = 0` no device read is made, the file being opened and closed
empty. -/
theorem mrf_read_chunks (env : Env) (argv : List (List Char)) (s : State) (addr N : Nat)
    (hargc : argv.length = 4)
    (h1 : Command.argUint32 env.einval (arg argv 1) = .ok addr)
    (h2 : Command.argUint32 env.einval (arg argv 2) = .ok N)
    (hc : s.connected = true) (hopen : env.fopenOk (arg argv 3) = true)
    (hread : ∀ k, env.readThrows k = false) (hfull : ∀ k n, n ≤ env.fwriteRet k n) :
    (Cmd.invoke .mrf env argv s).error = none ∧
    (Cmd.invoke .mrf env argv s).calls.filterMap Call.readLength =
      (List.range ((N + 1023) / 1024)).map (fun j => min (N - 1024 * j) 1024) ∧
    ((Cmd.invoke .mrf env argv s).calls.filterMap Call.readLength).length
      = (N + 1023) / 1024 ∧
    (∀ n ∈ (Cmd.invoke .mrf env argv s).calls.filterMap Call.readLength, 1 ≤ n ∧ n ≤ 1024) ∧
    ((Cmd.invoke .mrf env argv s).calls.filterMap Call.readLength).sum = N ∧
    (Cmd.invoke .mrf env argv s).calls.filterMap Call.writeLength =
      (Cmd.invoke .mrf env argv s).calls.filterMap Call.readLength ∧
    (Cmd.invoke .mrf env argv s).file.length = N ∧
    (N = 0 → (Cmd.invoke .mrf env argv s).calls =
        [Call.fopen (arg argv 3) true, Call.fclose] ∧
      (Cmd.invoke .mrf env argv s).file = []) := by
  obtain ⟨e1, e2, e3, e4, e5, e6⟩ := mrf_loop_chunks env s addr hread hfull N 0
  have hr : (Cmd.invoke .mrf env argv s).calls.filterMap Call.readLength =
      (CommandMrf.loop env s addr N 0).calls.filterMap Call.readLength := by
    simp only [Cmd.invoke]
    rw [mrf_invoke_eq env argv s addr N hargc h1 h2 hc hopen]
    simp [List.filterMap_cons, List.filterMap_append, Call.readLength]
  have hw : (Cmd.invoke .mrf env argv s).calls.filterMap Call.writeLength =
      (CommandMrf.loop env s addr N 0).calls.filterMap Call.writeLength := by
    simp only [Cmd.invoke]
    rw [mrf_invoke_eq env argv s addr N hargc h1 h2 hc hopen]
    simp [List.filterMap_cons, List.filterMap_append, Call.writeLength]
  rw [hr, hw]
  refine ⟨?_, e3, ?_, e6, e5, e4, ?_, ?_⟩
  · simp only [Cmd.invoke]
    rw [mrf_invoke_eq env argv s addr N hargc h1 h2 hc hopen]
    exact e1
  · rw [e3, List.length_map, List.length_range]
  · simp only [Cmd.invoke]
    rw [mrf_invoke_eq env argv s addr N hargc h1 h2 hc hopen]
    exact e2
  · intro hN
    subst hN
    simp only [Cmd.invoke]
    rw [mrf_invoke_eq env argv s addr 0 hargc h1 h2 hc hopen, mrf_loop_zero]
    exact ⟨rfl, rfl⟩

/-- C21 at `mrf 0 2500 out.bin` on the sample session: three reads, of 1024, 1024 and 452
bytes. -/
theorem mrf_read_chunks_witness :
    (tokens ["mrf", "0", "2500", "out.bin"]).length = 4 ∧
    Command.argUint32 Env.sample.einval (arg (tokens ["mrf", "0", "2500", "out.bin"]) 1)
      = .ok 0 ∧
    Command.argUint32 Env.sample.einval (arg (tokens ["mrf", "0", "2500", "out.bin"]) 2)
      = .ok 2500 ∧
    State.sample.connected = true ∧
    Env.sample.fopenOk (arg (tokens ["mrf", "0", "2500", "out.bin"]) 3) = true ∧
    (∀ k, Env.sample.readThrows k = false) ∧ (∀ k n, n ≤ Env.sample.fwriteRet k n) ∧
    (Cmd.invoke .mrf Env.sample (tokens ["mrf", "0", "2500", "out.bin"]) State.sample).error
      = none ∧
    (Cmd.invoke .mrf Env.sample (tokens ["mrf", "0", "2500", "out.bin"])
      State.sample).calls.filterMap Call.readLength = [1024, 1024, 452] ∧
    (Cmd.invoke .mrf Env.sample (tokens ["mrf", "0", "2500", "out.bin"])
      State.sample).file.length = 2500 :=
  ⟨by decide, by decide, by decide, rfl, rfl, fun _ => rfl, fun _ n => Nat.le_refl n,
    (mrf_read_chunks Env.sample (tokens ["mrf", "0", "2500", "out.bin"]) State.sample 0 2500
      (by decide) (by decide) (by decide) rfl rfl (fun _ => rfl)
      (fun _ n => Nat.le_refl n)).1,
    (mrf_read_chunks Env.sample (tokens ["mrf", "0", "2500", "out.bin"]) State.sample 0 2500
      (by decide) (by decide) (by decide) rfl rfl (fun _ => rfl)
      (fun _ n => Nat.le_refl n)).2.1.trans (by decide),
    (mrf_read_chunks Env.sample (tokens ["mrf", "0", "2500", "out.bin"]) State.sample 0 2500
      (by decide) (by decide) (by decide) rfl rfl (fun _ => rfl)
      (fun _ n => Nat.le_refl n)).2.2.2.2.2.2.1⟩

/-! ## Word writes at the prompt -/

/-- C22, the code at `mww 0x20000000` on the sample session with the words `0x11111111` and
`0x22222222` typed at the prompt: the second word is written at `0x20000001`, one byte after
the first, where the claim has `0x20000004`; `mrw 0x20000000 2` reads its second word at
`0x20000004`.  The prompt loop of `CommandMww::invoke` ends in `addr++`. -/
theorem mww_prompt_steps_by_one :
    (Cmd.invoke .mww (Env.typing ["0x11111111", "0x22222222"]) (tokens ["mww", "0x20000000"])
      State.sample).calls =
      [Call.readline, Call.writeWord 0x20000000 0x11111111,
        Call.readline, Call.writeWord 0x20000001 0x22222222, Call.readline] ∧
    (Cmd.invoke .mrw Env.sample (tokens ["mrw", "0x20000000", "2"]) State.sample).calls =
      [Call.readWord 0x20000000, Call.readWord 0x20000004] := by
  decide

/-! ## The buffer of `binstr` -/

/-- C23: for every value and every `bits` in [1, 32], the characters `binstr` stores, the
separator after bit 0 included, number at most 36, so they go to positions 0 to 35 of the
36-character buffer; the terminator replaces the last of them, and the string returned has
at most 35 characters. -/
theorem binstr_within_buffer (value bits : Nat) (hbits : 1 ≤ bits ∧ bits ≤ 32) :
    0 < (Command.binstrLoop value bits).length ∧
    (Command.binstrLoop value bits).length ≤ 36 ∧
    ∃ str, Command.binstr value bits = some str ∧
      str.length = (Command.binstrLoop value bits).length - 1 ∧ str.length ≤ 35 := by
  have hlen := binstrLoop_length value bits
  refine ⟨by omega, by omega, (Command.binstrLoop value bits).dropLast, ?_, ?_, ?_⟩
  · unfold Command.binstr
    rw [if_pos ⟨hbits.2, by omega⟩]
  · rw [List.length_dropLast]
  · rw [List.length_dropLast]
    omega

/-- C23 at `binstr(5, 32)`: all 36 positions are written and the string has 35 characters. -/
theorem binstr_within_buffer_witness :
    (1 ≤ 32 ∧ 32 ≤ 32) ∧
    (Command.binstrLoop 5 32).length = 36 ∧
    (0 < (Command.binstrLoop 5 32).length ∧
    (Command.binstrLoop 5 32).length ≤ 36 ∧
    ∃ str, Command.binstr 5 32 = some str ∧
      str.length = (Command.binstrLoop 5 32).length - 1 ∧ str.length ≤ 35) :=
  ⟨by decide, by decide, binstr_within_buffer 5 32 (by decide)⟩

end Bossa
